import Mathlib

/-!
Verification of the bar-monitor core pipeline
(`hailo_integration/counting_logic.py`, `dwell_time_tracker.py`,
`occupancy_tracker.py`) against its natural-language specification.

Shallow embedding conventions:
* Python `dict` objects (insertion-ordered in CPython) are modelled as
  association lists `List (Nat × α)`; assignment to an existing key replaces
  the entry in place, assignment to a fresh key appends.
* Python `datetime` timestamps are modelled as whole seconds since an epoch
  that falls on a Monday at 00:00 (`Nat`); `datetime.hour` and
  `strftime` weekday names are derived arithmetically.  Durations
  (`timedelta.total_seconds() / 60.0`) are exact rationals.
* The SQLite `sessions` table is modelled as a list of rows in insertion
  order; `INSERT` appends, `UPDATE ... WHERE` maps over all matching rows.
* Calls to `time.time()` / `datetime.now()` are modelled by an explicit
  `now` argument threaded into each operation.
-/

namespace BarMonitor

/-! ### Association-list helpers (Python `dict` semantics) -/

/-- First value stored under key `k` (Python `d[k]` / `k in d`). -/
def lookupA {α : Type} : List (Nat × α) → Nat → Option α
  | [], _ => none
  | (k, v) :: rest, k' => if k = k' then some v else lookupA rest k'

/-- Python `d[k] = v`: replace in place if the key exists, else append. -/
def insertA {α : Type} : List (Nat × α) → Nat → α → List (Nat × α)
  | [], k, v => [(k, v)]
  | (k0, v0) :: rest, k, v =>
      if k0 = k then (k0, v) :: rest else (k0, v0) :: insertA rest k v

/-- Python `del d[k]` (removes every entry with key `k`; keys are unique). -/
def eraseA {α : Type} : List (Nat × α) → Nat → List (Nat × α)
  | [], _ => []
  | (k0, v0) :: rest, k =>
      if k0 = k then eraseA rest k else (k0, v0) :: eraseA rest k

/-! ### Calendar arithmetic for the timestamp model -/

/-- Weekday names as produced by `strftime` with the `%A` format. -/
def weekdayNames : List String :=
  ["Monday", "Tuesday", "Wednesday", "Thursday", "Friday", "Saturday", "Sunday"]

/-- Hour-of-day of a timestamp (Python `datetime.hour`). -/
def hourOf (t : Nat) : Nat := t / 3600 % 24

/-- Weekday name of a timestamp; the model epoch is a Monday midnight. -/
def weekdayName (t : Nat) : String := weekdayNames.getD (t / 86400 % 7) "Monday"

/-! ### `dwell_time_tracker.py`: `DwellSession` -/

/-- One customer visit (`DwellSession` dataclass). -/
structure DwellSession where
  track_id : Nat
  entry_time : Nat
  exit_time : Option Nat := none
  dwell_minutes : Option ℚ := none
  day_of_week : Option String := none
  entry_hour : Option Nat := none
  deriving Repr, DecidableEq

/-- `DwellSession.calculate_dwell_time`: fills the derived fields once the
exit time is set. -/
def calculate_dwell_time (s : DwellSession) : DwellSession :=
  match s.exit_time with
  | some ex =>
      { s with
        dwell_minutes := some (((ex : ℚ) - (s.entry_time : ℚ)) / 60),
        day_of_week := some (weekdayName s.entry_time),
        entry_hour := some (hourOf s.entry_time) }
  | none => s

/-- `DwellSession.get_current_dwell_minutes`: elapsed minutes, using `now`
when the session is still open (`exit_time or datetime.now()`). -/
def get_current_dwell_minutes (s : DwellSession) (now : Nat) : ℚ :=
  (((s.exit_time.getD now) : ℚ) - (s.entry_time : ℚ)) / 60

/-! ### `dwell_time_tracker.py`: the `sessions` table and the tracker -/

/-- One row of the SQLite `sessions` table. -/
structure SessionRow where
  track_id : Nat
  entry_time : Nat
  exit_time : Option Nat
  dwell_minutes : Option ℚ
  day_of_week : Option String
  entry_hour : Option Nat
  is_active : Bool
  deriving Repr, DecidableEq

/-- `DwellTimeTracker` state: the persisted table, the in-memory active
session map, and the two configured thresholds (minutes). -/
structure DwellTimeTracker where
  db : List SessionRow
  active_sessions : List (Nat × DwellSession)
  warning_threshold : Nat := 90
  alert_threshold : Nat := 120
  deriving Repr, DecidableEq

/-- Body of the row loop in `DwellTimeTracker._load_active_sessions`: an
active row is rebuilt into a `DwellSession` and stored under its track id. -/
def loadStep (acc : List (Nat × DwellSession)) (row : SessionRow) :
    List (Nat × DwellSession) :=
  if row.is_active then
    insertA acc row.track_id
      { track_id := row.track_id, entry_time := row.entry_time,
        exit_time := row.exit_time, dwell_minutes := row.dwell_minutes }
  else acc

/-- `DwellTimeTracker._load_active_sessions`: rebuild the in-memory active
map from every row with `is_active = 1`. -/
def load_active_sessions (db : List SessionRow) : List (Nat × DwellSession) :=
  db.foldl loadStep []

/-- `DwellTimeTracker.__init__` over an existing database: recovery of the
open sessions runs once, during construction. -/
def initTracker (db : List SessionRow) (warning : Nat := 90) (alert : Nat := 120) :
    DwellTimeTracker :=
  { db := db, active_sessions := load_active_sessions db,
    warning_threshold := warning, alert_threshold := alert }

/-- `DwellTimeTracker.record_entry`: create a fresh open session in memory
(overwriting any session stored under the same key) and insert an open row. -/
def record_entry (t : DwellTimeTracker) (track_id : Nat) (timestamp : Nat) :
    DwellTimeTracker :=
  let session : DwellSession := { track_id := track_id, entry_time := timestamp }
  { t with
    active_sessions := insertA t.active_sessions track_id session,
    db := t.db ++
      [{ track_id := track_id, entry_time := timestamp, exit_time := none,
         dwell_minutes := none, day_of_week := none, entry_hour := none,
         is_active := true }] }

/-- `DwellTimeTracker.record_exit`: warn-and-return when the id is unknown;
otherwise close the in-memory session and run
`UPDATE sessions SET ... WHERE track_id = ? AND is_active = 1`. -/
def record_exit (t : DwellTimeTracker) (track_id : Nat) (timestamp : Nat) :
    DwellTimeTracker :=
  match lookupA t.active_sessions track_id with
  | none => t
  | some s =>
      let s' := calculate_dwell_time { s with exit_time := some timestamp }
      { t with
        db := t.db.map (fun row =>
          if row.track_id = track_id ∧ row.is_active = true then
            { row with
              exit_time := some timestamp,
              dwell_minutes := s'.dwell_minutes,
              day_of_week := s'.day_of_week,
              entry_hour := s'.entry_hour,
              is_active := false }
          else row),
        active_sessions := eraseA t.active_sessions track_id }

/-- Descending comparison on current dwell, the sort key used by
`get_campers` and `get_warnings` (`reverse=True`). -/
def dwellGE (now : Nat) (a b : DwellSession) : Prop :=
  get_current_dwell_minutes b now ≤ get_current_dwell_minutes a now

instance (now : Nat) : DecidableRel (dwellGE now) :=
  fun a b => inferInstanceAs (Decidable (_ ≤ _))

/-- `DwellTimeTracker.get_campers`: active sessions at or over the threshold
(the alert threshold when none is given), sorted by dwell, longest first. -/
def get_campers (t : DwellTimeTracker) (now : Nat)
    (threshold_minutes : Option Nat := none) : List DwellSession :=
  let thr := threshold_minutes.getD t.alert_threshold
  let campers := (t.active_sessions.map Prod.snd).filter
    (fun s => decide ((thr : ℚ) ≤ get_current_dwell_minutes s now))
  campers.insertionSort (dwellGE now)

/-- `DwellTimeTracker.get_warnings`: active sessions between the warning and
alert thresholds, sorted by dwell, longest first. -/
def get_warnings (t : DwellTimeTracker) (now : Nat) : List DwellSession :=
  let warnings := (t.active_sessions.map Prod.snd).filter
    (fun s => decide ((t.warning_threshold : ℚ) ≤ get_current_dwell_minutes s now ∧
                      get_current_dwell_minutes s now < (t.alert_threshold : ℚ)))
  warnings.insertionSort (dwellGE now)

/-- `DwellTimeTracker.__init__` with the default thresholds
(`warning_threshold=90`, `alert_threshold=120`), with the database and the
in-memory active map taken as given (any reachable tracker state). -/
def mkTrackerDefault (db : List SessionRow) (sess : List (Nat × DwellSession)) :
    DwellTimeTracker :=
  { db := db, active_sessions := sess }

instance (now : Nat) : IsTotal DwellSession (dwellGE now) :=
  ⟨fun a b => le_total (get_current_dwell_minutes b now) (get_current_dwell_minutes a now)⟩

instance (now : Nat) : IsTrans DwellSession (dwellGE now) :=
  ⟨fun _ _ _ h1 h2 => le_trans h2 h1⟩

/-! ### Lemmas about active-session recovery -/

lemma foldl_loadStep_of_filter_nil (db : List SessionRow) :
    ∀ acc, db.filter (fun x => x.is_active) = [] → db.foldl loadStep acc = acc := by
  induction db with
  | nil => intro acc _; rfl
  | cons r rest ih =>
      intro acc h
      cases hr : r.is_active with
      | true => simp [List.filter_cons, hr] at h
      | false =>
          simp only [List.filter_cons, hr, Bool.false_eq_true, if_false] at h
          simpa [loadStep, hr] using ih acc h

lemma foldl_loadStep_of_filter_single (db : List SessionRow) (r : SessionRow) :
    ∀ acc, db.filter (fun x => x.is_active) = [r] →
      db.foldl loadStep acc =
        insertA acc r.track_id
          { track_id := r.track_id, entry_time := r.entry_time,
            exit_time := r.exit_time, dwell_minutes := r.dwell_minutes } := by
  induction db with
  | nil => intro acc h; simp at h
  | cons row rest ih =>
      intro acc h
      cases hr : row.is_active with
      | true =>
          simp only [List.filter_cons, hr, if_true] at h
          obtain ⟨rfl, hrest⟩ := List.cons_eq_cons.mp h
          simp only [List.foldl_cons, loadStep, hr, if_true]
          exact foldl_loadStep_of_filter_nil rest _ hrest
      | false =>
          simp only [List.filter_cons, hr, Bool.false_eq_true, if_false] at h
          simpa [loadStep, hr] using ih acc h

/-! ### Claim theorems for the dwell-time store -/

/-- C3: from a fresh store, `record_entry id t1` followed by
`record_exit id t2` with `t1 ≤ t2` leaves exactly one session row, closed
(`is_active = false`), with dwell minutes `(t2 - t1)/60`, entry hour
`hourOf t1` and weekday `weekdayName t1`; no active session remains. -/
theorem C3_entry_exit_single_closed_session (id t1 t2 : Nat) (h : t1 ≤ t2) :
    (record_exit (record_entry (initTracker []) id t1) id t2).db =
      [{ track_id := id, entry_time := t1, exit_time := some t2,
         dwell_minutes := some (((t2 : ℚ) - (t1 : ℚ)) / 60),
         day_of_week := some (weekdayName t1), entry_hour := some (hourOf t1),
         is_active := false }] ∧
    (record_exit (record_entry (initTracker []) id t1) id t2).active_sessions = [] := by
  refine ⟨?_, ?_⟩ <;>
    simp [record_exit, record_entry, initTracker, load_active_sessions,
      lookupA, insertA, eraseA, calculate_dwell_time]

/-- Witness for C3 at the 47-minute scenario: entry at `t = 3600`
(hour 1 of the epoch Monday), exit 47 minutes later. -/
theorem C3_entry_exit_single_closed_session_witness :
    (record_exit (record_entry (initTracker []) 7 3600) 7 6420).db =
      [{ track_id := 7, entry_time := 3600, exit_time := some 6420,
         dwell_minutes := some (((6420 : ℚ) - (3600 : ℚ)) / 60),
         day_of_week := some (weekdayName 3600), entry_hour := some (hourOf 3600),
         is_active := false }] ∧
    (record_exit (record_entry (initTracker []) 7 3600) 7 6420).active_sessions = [] :=
  C3_entry_exit_single_closed_session 7 3600 6420 (by norm_num)

/-- C4: `record_exit` for an identity with no open session is a no-op: the
tracker state (database, active map, thresholds) is returned unchanged. -/
theorem C4_exit_unknown_id_noop (t : DwellTimeTracker) (id ts : Nat)
    (h : lookupA t.active_sessions id = none) :
    record_exit t id ts = t := by
  simp [record_exit, h]

/-- Witness for C4: a fresh store has no session for id 5, and an exit call
for it changes nothing. -/
theorem C4_exit_unknown_id_noop_witness :
    lookupA (initTracker []).active_sessions 5 = none ∧
    record_exit (initTracker []) 5 0 = initTracker [] :=
  ⟨rfl, C4_exit_unknown_id_noop (initTracker []) 5 0 rfl⟩

/-- C5: constructing the tracker over a database whose only active row is
`r` (with no exit timestamp) rebuilds exactly one in-memory active session,
keyed by `r.track_id`, with the original entry timestamp. -/
theorem C5_restart_recovers_single_open_session (db : List SessionRow)
    (r : SessionRow) (h1 : db.filter (fun x => x.is_active) = [r])
    (h2 : r.exit_time = none) :
    (initTracker db).active_sessions =
      [(r.track_id,
        { track_id := r.track_id, entry_time := r.entry_time,
          exit_time := none, dwell_minutes := r.dwell_minutes })] := by
  have := foldl_loadStep_of_filter_single db r [] h1
  simp only [initTracker, load_active_sessions, this, insertA, h2]

/-- Witness for C5: a database holding one open row for id 9 entered at
`t = 500`. -/
theorem C5_restart_recovers_single_open_session_witness :
    (initTracker [{ track_id := 9, entry_time := 500, exit_time := none,
                    dwell_minutes := none, day_of_week := none,
                    entry_hour := none, is_active := true }]).active_sessions =
      [(9, { track_id := 9, entry_time := 500, exit_time := none,
             dwell_minutes := none })] :=
  C5_restart_recovers_single_open_session _ _ (by rfl) (by rfl)

/-- C7: with the default thresholds (90/120 minutes), campers all have dwell
at least 120, warnings all lie in `[90, 120)`, the two lists are disjoint,
and both lists are sorted descending by current dwell. -/
theorem C7_campers_warnings_thresholds_sorted (db : List SessionRow)
    (sess : List (Nat × DwellSession)) (now : Nat) :
    (∀ s ∈ get_campers (mkTrackerDefault db sess) now,
        (120 : ℚ) ≤ get_current_dwell_minutes s now) ∧
    (∀ s ∈ get_warnings (mkTrackerDefault db sess) now,
        (90 : ℚ) ≤ get_current_dwell_minutes s now ∧
        get_current_dwell_minutes s now < (120 : ℚ)) ∧
    (∀ s, s ∈ get_campers (mkTrackerDefault db sess) now →
        s ∈ get_warnings (mkTrackerDefault db sess) now → False) ∧
    List.Sorted (dwellGE now) (get_campers (mkTrackerDefault db sess) now) ∧
    List.Sorted (dwellGE now) (get_warnings (mkTrackerDefault db sess) now) := by
  have hc : ∀ s ∈ get_campers (mkTrackerDefault db sess) now,
      (120 : ℚ) ≤ get_current_dwell_minutes s now := by
    intro s hs
    simp only [get_campers, mkTrackerDefault, List.mem_insertionSort,
      List.mem_filter, decide_eq_true_eq] at hs
    exact_mod_cast hs.2
  have hw : ∀ s ∈ get_warnings (mkTrackerDefault db sess) now,
      (90 : ℚ) ≤ get_current_dwell_minutes s now ∧
      get_current_dwell_minutes s now < (120 : ℚ) := by
    intro s hs
    simp only [get_warnings, mkTrackerDefault, List.mem_insertionSort,
      List.mem_filter, decide_eq_true_eq] at hs
    exact_mod_cast hs.2
  refine ⟨hc, hw, ?_, ?_, ?_⟩
  · intro s hsc hsw
    exact absurd (hc s hsc) (not_le.mpr (hw s hsw).2)
  · exact List.sorted_insertionSort (dwellGE now) _
  · exact List.sorted_insertionSort (dwellGE now) _

/-- C6 (amended): a second `record_entry` for an id with an open session
inserts a second open database row but overwrites the single in-memory
session (the map holds one entry, for the newest entry time); a subsequent
`record_exit` closes all open rows for that id at once, stamping both with
derived values computed from the newest entry time `t2`. -/
theorem C6_double_entry_overwrites_and_exit_closes_all (id t1 t2 t3 : Nat) :
    ((record_entry (record_entry (initTracker []) id t1) id t2).db.filter
        (fun r => r.is_active)).length = 2 ∧
    (record_entry (record_entry (initTracker []) id t1) id t2).active_sessions =
      [(id, { track_id := id, entry_time := t2 })] ∧
    (record_exit (record_entry (record_entry (initTracker []) id t1) id t2) id t3).db =
      [{ track_id := id, entry_time := t1, exit_time := some t3,
         dwell_minutes := some (((t3 : ℚ) - (t2 : ℚ)) / 60),
         day_of_week := some (weekdayName t2), entry_hour := some (hourOf t2),
         is_active := false },
       { track_id := id, entry_time := t2, exit_time := some t3,
         dwell_minutes := some (((t3 : ℚ) - (t2 : ℚ)) / 60),
         day_of_week := some (weekdayName t2), entry_hour := some (hourOf t2),
         is_active := false }] ∧
    (record_exit (record_entry (record_entry (initTracker []) id t1) id t2) id t3).active_sessions
      = [] := by
  refine ⟨?_, ?_, ?_, ?_⟩ <;>
    simp [record_exit, record_entry, initTracker, load_active_sessions,
      lookupA, insertA, eraseA, calculate_dwell_time]

/-- C6 counterexample: after entry, entry, exit for id 1, the in-memory map
held one session (not two), and the exit left zero open rows (the claim's
"closes only the one open session it finds" would leave one open row). -/
theorem C6_counterexample :
    (record_entry (record_entry (initTracker []) 1 0) 1 10).active_sessions.length = 1 ∧
    ((record_exit (record_entry (record_entry (initTracker []) 1 0) 1 10) 1 20).db.filter
        (fun r => r.is_active)).length = 0 := by
  exact ⟨rfl, rfl⟩

/-! ### `occupancy_tracker.py`: snapshots, events, `OccupancyTracker` -/

/-- The statistics dictionary handed to `OccupancyTracker.update` (produced
by `EntryExitCounter.get_stats`). -/
structure OccStats where
  current_occupancy : ℤ
  total_entries : ℤ
  total_exits : ℤ
  active_tracks : ℤ
  deriving Repr, DecidableEq

/-- One row of the `events` table (`OccupancyEvent`).  Wall-clock instants
are modelled as whole seconds (`ℤ`). -/
structure OccEvent where
  timestamp : ℤ
  event_type : String
  occupancy_after : ℤ
  deriving Repr, DecidableEq

/-- One row of the `snapshots` table (`OccupancySnapshot`). -/
structure OccSnapshot where
  timestamp : ℤ
  current_occupancy : ℤ
  total_entries : ℤ
  total_exits : ℤ
  active_tracks : ℤ
  deriving Repr, DecidableEq

/-- `OccupancyTracker` state: the mirrored counters, the snapshot clock and
the two append-only tables.  The background snapshot thread is outside this
model; only the in-`update` snapshot branch is embedded. -/
structure OccupancyTracker where
  snapshot_interval : ℤ := 60
  current_occupancy : ℤ := 0
  total_entries : ℤ := 0
  total_exits : ℤ := 0
  active_tracks : ℤ := 0
  last_snapshot_time : ℤ
  events : List OccEvent := []
  snapshots : List OccSnapshot := []
  deriving Repr, DecidableEq

/-- `OccupancyTracker.__init__` at construction time `now`. -/
def initOccupancyTracker (now : ℤ) (snapshot_interval : ℤ := 60) : OccupancyTracker :=
  { snapshot_interval := snapshot_interval, last_snapshot_time := now }

/-- `OccupancyTracker._record_event`: append one event row carrying the
tracker's current occupancy. -/
def record_event (t : OccupancyTracker) (event_type : String) (now : ℤ) :
    OccupancyTracker :=
  { t with events := t.events ++
      [{ timestamp := now, event_type := event_type,
         occupancy_after := t.current_occupancy }] }

/-- The `for _ in range(n): self._record_event(...)` loop. -/
def record_event_loop (t : OccupancyTracker) (event_type : String) (now : ℤ) :
    Nat → OccupancyTracker
  | 0 => t
  | n + 1 => record_event_loop (record_event t event_type now) event_type now n

/-- `OccupancyTracker._take_snapshot`: append one snapshot row. -/
def take_snapshot (t : OccupancyTracker) (now : ℤ) : OccupancyTracker :=
  { t with snapshots := t.snapshots ++
      [{ timestamp := now, current_occupancy := t.current_occupancy,
         total_entries := t.total_entries, total_exits := t.total_exits,
         active_tracks := t.active_tracks }] }

/-- `OccupancyTracker.update`: compute entry/exit deltas against the stored
totals, overwrite the mirrored state, record one event row per delta unit,
then take a snapshot if the interval elapsed. -/
def occupancy_update (t : OccupancyTracker) (stats : OccStats) (now : ℤ) :
    OccupancyTracker :=
  let new_entries := stats.total_entries - t.total_entries
  let new_exits := stats.total_exits - t.total_exits
  let t1 : OccupancyTracker :=
    { t with
      current_occupancy := stats.current_occupancy,
      total_entries := stats.total_entries,
      total_exits := stats.total_exits,
      active_tracks := stats.active_tracks }
  let t2 := if 0 < new_entries then record_event_loop t1 "entry" now new_entries.toNat else t1
  let t3 := if 0 < new_exits then record_event_loop t2 "exit" now new_exits.toNat else t2
  if t.snapshot_interval ≤ now - t3.last_snapshot_time then
    { take_snapshot t3 now with last_snapshot_time := now }
  else t3

/-- Occupancy-after values the claim predicts for a batch: each event row
carries the running occupancy resulting from that individual event
(entries first, then exits, starting from the previous occupancy).
Modelled from the claim's words, for comparison against the code. -/
def claimedEventOccupancies (startOcc : ℤ) (nEntries nExits : Nat) : List ℤ :=
  ((List.range nEntries).map fun k => startOcc + k + 1) ++
  ((List.range nExits).map fun k => startOcc + nEntries - k - 1)

/-! ### Lemmas about event recording -/

lemma record_event_loop_facts (event_type : String) (now : ℤ) :
    ∀ (n : Nat) (t : OccupancyTracker),
      (record_event_loop t event_type now n).events =
        t.events ++ List.replicate n
          { timestamp := now, event_type := event_type,
            occupancy_after := t.current_occupancy } ∧
      (record_event_loop t event_type now n).current_occupancy = t.current_occupancy ∧
      (record_event_loop t event_type now n).last_snapshot_time = t.last_snapshot_time := by
  intro n
  induction n with
  | zero => intro t; simp [record_event_loop]
  | succ n ih =>
      intro t
      obtain ⟨h1, h2, h3⟩ := ih (record_event t event_type now)
      simp only [record_event] at h1 h2 h3
      refine ⟨?_, by simpa using h2, by simpa using h3⟩
      simp [record_event_loop, record_event, h1, List.replicate_succ,
        List.append_assoc]

lemma record_event_loop_events (t : OccupancyTracker) (event_type : String)
    (now : ℤ) (n : Nat) :
    (record_event_loop t event_type now n).events =
      t.events ++ List.replicate n
        { timestamp := now, event_type := event_type,
          occupancy_after := t.current_occupancy } :=
  (record_event_loop_facts event_type now n t).1

lemma record_event_loop_occupancy (t : OccupancyTracker) (event_type : String)
    (now : ℤ) (n : Nat) :
    (record_event_loop t event_type now n).current_occupancy = t.current_occupancy :=
  (record_event_loop_facts event_type now n t).2.1

lemma record_event_loop_snapclock (t : OccupancyTracker) (event_type : String)
    (now : ℤ) (n : Nat) :
    (record_event_loop t event_type now n).last_snapshot_time = t.last_snapshot_time :=
  (record_event_loop_facts event_type now n t).2.2

/-- New event rows appended by one `update` call: one `entry` row per unit of
positive entry delta, then one `exit` row per unit of positive exit delta,
all stamped with the supplied occupancy. -/
lemma occupancy_update_events (t : OccupancyTracker) (stats : OccStats) (now : ℤ) :
    (occupancy_update t stats now).events =
      t.events ++
      List.replicate (stats.total_entries - t.total_entries).toNat
        { timestamp := now, event_type := "entry",
          occupancy_after := stats.current_occupancy } ++
      List.replicate (stats.total_exits - t.total_exits).toNat
        { timestamp := now, event_type := "exit",
          occupancy_after := stats.current_occupancy } := by
  rcases lt_or_le 0 (stats.total_entries - t.total_entries) with hE | hE <;>
    rcases lt_or_le 0 (stats.total_exits - t.total_exits) with hX | hX
  · simp only [occupancy_update, if_pos hE, if_pos hX]
    split <;>
      simp [take_snapshot, record_event_loop_events, record_event_loop_occupancy]
  · simp only [occupancy_update, if_pos hE, if_neg (not_lt.mpr hX),
      Int.toNat_of_nonpos hX, List.replicate_zero, List.append_nil]
    split <;>
      simp [take_snapshot, record_event_loop_events, record_event_loop_occupancy]
  · simp only [occupancy_update, if_neg (not_lt.mpr hE), if_pos hX,
      Int.toNat_of_nonpos hE, List.replicate_zero, List.append_nil]
    split <;>
      simp [take_snapshot, record_event_loop_events, record_event_loop_occupancy]
  · simp only [occupancy_update, if_neg (not_lt.mpr hE), if_neg (not_lt.mpr hX),
      Int.toNat_of_nonpos hE, Int.toNat_of_nonpos hX, List.replicate_zero,
      List.append_nil]
    split <;> simp [take_snapshot]

/-! ### Claim theorems for the occupancy tracker -/

/-- C9 (amended): `update` computes the entry and exit deltas against the
stored totals and appends exactly one event row per new entry and per new
exit; every event row recorded by the call carries the occupancy supplied
in that call (the occupancy after the whole batch), identical across the
batch rather than a per-event running value. -/
theorem C9_update_records_delta_events (t : OccupancyTracker) (stats : OccStats)
    (now : ℤ) :
    ∃ newEvents,
      (occupancy_update t stats now).events = t.events ++ newEvents ∧
      (newEvents.filter (fun e => e.event_type == "entry")).length =
        (stats.total_entries - t.total_entries).toNat ∧
      (newEvents.filter (fun e => e.event_type == "exit")).length =
        (stats.total_exits - t.total_exits).toNat ∧
      (∀ e ∈ newEvents, e.occupancy_after = stats.current_occupancy) := by
  refine ⟨(List.replicate (stats.total_entries - t.total_entries).toNat
      { timestamp := now, event_type := "entry",
        occupancy_after := stats.current_occupancy }) ++
    (List.replicate (stats.total_exits - t.total_exits).toNat
      { timestamp := now, event_type := "exit",
        occupancy_after := stats.current_occupancy }), ?_, ?_, ?_, ?_⟩
  · simpa [List.append_assoc] using occupancy_update_events t stats now
  · simp [List.filter_append, List.filter_replicate]
  · simp [List.filter_append, List.filter_replicate]
  · intro e he
    rcases List.mem_append.mp he with h | h <;>
      · rw [List.eq_of_mem_replicate h]

/-- C9 counterexample: a single `update` carrying two new entries (fresh
tracker, supplied totals `entries = 2`, occupancy `2`) records two event
rows both stamped with occupancy 2, whereas the claim's per-event running
occupancies would be `[1, 2]`. -/
theorem C9_counterexample :
    ((occupancy_update (initOccupancyTracker 0) ⟨2, 2, 0, 0⟩ 0).events.map
        (fun e => e.occupancy_after)) = [2, 2] ∧
    claimedEventOccupancies 0 2 0 = [1, 2] ∧
    ([2, 2] : List ℤ) ≠ [1, 2] := by
  refine ⟨by decide, by decide, by decide⟩

/-! ### `counting_logic.py`: `CentroidTracker._greedy_match`

The numpy working copy of the distance matrix is modelled as
`List (List (Option α))` over a linear order `α`: `some d` is a live entry,
`none` is an entry overwritten with `inf` (or absent).  `distances.min()`
is the minimum over live entries, `argmin`/`unravel_index` is the first
attaining position in row-major order, and `distances[i, :] = inf` /
`distances[:, j] = inf` blank a row and a column. -/

section GreedyMatch

variable {α : Type} [LinearOrder α]

/-- Minimum of two possibly-absent values (`inf` absorbs nothing). -/
def omin : Option α → Option α → Option α
  | none, b => b
  | some x, none => some x
  | some x, some y => some (min x y)

/-- Minimum of the live entries of one row. -/
def rowMin (row : List (Option α)) : Option α := row.foldr omin none

/-- `distances.min()`: minimum over all live entries of the matrix. -/
def matrixMin (M : List (List (Option α))) : Option α :=
  (M.map rowMin).foldr omin none

/-- Column index of the first entry of a row equal to `some v`. -/
def rowFind : List (Option α) → α → Option Nat
  | [], _ => none
  | e :: rest, v => if e = some v then some 0 else (rowFind rest v).map (· + 1)

/-- `np.unravel_index(distances.argmin(), ...)`: the first position holding
the value `v`, scanning in row-major order. -/
def findPos : List (List (Option α)) → α → Option (Nat × Nat)
  | [], _ => none
  | row :: rest, v =>
      match rowFind row v with
      | some j => some (0, j)
      | none => (findPos rest v).map (fun p => (p.1 + 1, p.2))

/-- `distances[:, j] = inf` restricted to one row: blank column `j`. -/
def maskCol : List (Option α) → Nat → List (Option α)
  | [], _ => []
  | _ :: rest, 0 => none :: rest
  | e :: rest, j + 1 => e :: maskCol rest j

/-- `distances[i, :] = inf`: blank row `i`. -/
def maskRow : List (List (Option α)) → Nat → List (List (Option α))
  | [], _ => []
  | row :: rest, 0 => (row.map fun _ => none) :: rest
  | row :: rest, i + 1 => row :: maskRow rest i

/-- Blank row `i` and column `j` (the two numpy assignments after a match). -/
def maskRowCol (M : List (List (Option α))) (i j : Nat) :
    List (List (Option α)) :=
  maskRow (M.map fun row => maskCol row j) i

/-- Entry of the working matrix at `(i, j)`; `none` for blanked or absent. -/
def getE (M : List (List (Option α))) (i j : Nat) : Option α :=
  (M.getD i []).getD j none

/-- Entry of the original (unmasked) distance matrix at `(i, j)`. -/
def getQ (D : List (List α)) (i j : Nat) : Option α :=
  (D.get? i).bind fun row => row.get? j

/-- Number of live entries of a row. -/
def countRow (row : List (Option α)) : Nat := (row.filter Option.isSome).length

/-- Number of live entries of the matrix (the loop's termination measure). -/
def countSome (M : List (List (Option α))) : Nat := (M.map countRow).sum

/-- The `while True` loop of `_greedy_match`, with fuel: find the global
minimum, stop if it exceeds `max_distance`, otherwise record its position
and blank its row and column. -/
def greedyMatchAux (maxd : α) : Nat → List (List (Option α)) → List (Nat × Nat)
  | 0, _ => []
  | fuel + 1, M =>
      match matrixMin M with
      | none => []
      | some v =>
          if maxd < v then []
          else
            match findPos M v with
            | none => []
            | some (i, j) => (i, j) :: greedyMatchAux maxd fuel (maskRowCol M i j)

/-- Wrap every entry of the input matrix as live. -/
def toMasked (D : List (List α)) : List (List (Option α)) :=
  D.map fun row => row.map some

/-- `CentroidTracker._greedy_match(distances, max_distance)`.  The fuel
`countSome (toMasked D) + 1` always exceeds the number of live entries, so
the loop always ends at its `break`. -/
def greedy_match (D : List (List α)) (max_distance : α) : List (Nat × Nat) :=
  greedyMatchAux max_distance (countSome (toMasked D) + 1) (toMasked D)

/-- Masked matrix after the row/column blanking of a list of accepted
matches, in order. -/
def usedMask (M : List (List (Option α))) (pairs : List (Nat × Nat)) :
    List (List (Option α)) :=
  pairs.foldl (fun A p => maskRowCol A p.1 p.2) M

end GreedyMatch

/-! ### Lemmas about the greedy matcher -/

section GreedyMatchLemmas

variable {α : Type} [LinearOrder α]

lemma matrixMin_cons (row : List (Option α)) (rest : List (List (Option α))) :
    matrixMin (row :: rest) = omin (rowMin row) (matrixMin rest) := rfl

lemma rowMin_cons (e : Option α) (rest : List (Option α)) :
    rowMin (e :: rest) = omin e (rowMin rest) := rfl

lemma rowMin_le (row : List (Option α)) :
    ∀ (c : Nat) (v : α), row.getD c none = some v →
      ∃ m, rowMin row = some m ∧ m ≤ v := by
  induction row with
  | nil => intro c v h; simp [List.getD] at h
  | cons e rest ih =>
      intro c v h
      cases c with
      | zero =>
          simp only [List.getD_cons_zero] at h
          subst h
          cases hr : rowMin rest with
          | none => exact ⟨v, by simp [rowMin_cons, hr, omin], le_refl v⟩
          | some y =>
              exact ⟨min v y, by simp [rowMin_cons, hr, omin], min_le_left v y⟩
      | succ c =>
          simp only [List.getD_cons_succ] at h
          obtain ⟨m, hm, hle⟩ := ih c v h
          cases e with
          | none => exact ⟨m, by simp [rowMin_cons, hm, omin], hle⟩
          | some x =>
              exact ⟨min x m, by simp [rowMin_cons, hm, omin],
                le_trans (min_le_right x m) hle⟩

lemma rowMin_rowFind (row : List (Option α)) :
    ∀ m, rowMin row = some m → ∃ j, rowFind row m = some j := by
  induction row with
  | nil => intro m h; simp [rowMin] at h
  | cons e rest ih =>
      intro m h
      rw [rowMin_cons] at h
      cases he : e with
      | none =>
          rw [he] at h
          simp only [omin] at h
          obtain ⟨j, hj⟩ := ih m h
          exact ⟨j + 1, by simp [rowFind, hj]⟩
      | some x =>
          rw [he] at h
          cases hr : rowMin rest with
          | none =>
              rw [hr] at h
              simp only [omin, Option.some.injEq] at h
              subst h
              exact ⟨0, by simp [rowFind]⟩
          | some y =>
              rw [hr] at h
              simp only [omin, Option.some.injEq] at h
              by_cases hx : x = m
              · subst hx; exact ⟨0, by simp [rowFind]⟩
              · have hy : rowMin rest = some m := by
                  rw [hr]
                  rcases min_choice x y with hc | hc <;> rw [hc] at h
                  · exact absurd h hx
                  · rw [h]
                obtain ⟨j, hj⟩ := ih m hy
                refine ⟨j + 1, ?_⟩
                simp [rowFind, hj, hx]

lemma rowFind_getD (row : List (Option α)) :
    ∀ (v : α) (j : Nat), rowFind row v = some j → row.getD j none = some v := by
  induction row with
  | nil => intro v j h; simp [rowFind] at h
  | cons e rest ih =>
      intro v j h
      simp only [rowFind] at h
      by_cases he : e = some v
      · rw [if_pos he] at h
        obtain rfl : j = 0 := by simpa using h.symm
        simpa [List.getD] using he
      · rw [if_neg he] at h
        cases hr : rowFind rest v with
        | none => rw [hr] at h; simp at h
        | some j' =>
            rw [hr] at h
            simp at h
            subst h
            simpa [List.getD_cons_succ] using ih v j' hr

lemma matrixMin_le (M : List (List (Option α))) :
    ∀ (r c : Nat) (v : α), getE M r c = some v →
      ∃ m, matrixMin M = some m ∧ m ≤ v := by
  induction M with
  | nil => intro r c v h; simp [getE, List.getD] at h
  | cons row rest ih =>
      intro r c v h
      cases r with
      | zero =>
          have hrow : row.getD c none = some v := by simpa [getE, List.getD] using h
          obtain ⟨m, hm, hle⟩ := rowMin_le row c v hrow
          cases hr : matrixMin rest with
          | none => exact ⟨m, by simp [matrixMin_cons, hm, hr, omin], hle⟩
          | some y =>
              exact ⟨min m y, by simp [matrixMin_cons, hm, hr, omin],
                le_trans (min_le_left m y) hle⟩
      | succ r =>
          have h' : getE rest r c = some v := by simpa [getE, List.getD] using h
          obtain ⟨m, hm, hle⟩ := ih r c v h'
          cases he : rowMin row with
          | none => exact ⟨m, by simp [matrixMin_cons, hm, he, omin], hle⟩
          | some x =>
              exact ⟨min x m, by simp [matrixMin_cons, hm, he, omin],
                le_trans (min_le_right x m) hle⟩

lemma matrixMin_findPos (M : List (List (Option α))) :
    ∀ m, matrixMin M = some m → ∃ p, findPos M m = some p := by
  induction M with
  | nil => intro m h; simp [matrixMin] at h
  | cons row rest ih =>
      intro m h
      cases hf : rowFind row m with
      | some j => exact ⟨(0, j), by simp [findPos, hf]⟩
      | none =>
          have hrow : rowMin row ≠ some m := by
            intro hcon
            obtain ⟨j, hj⟩ := rowMin_rowFind row m hcon
            rw [hf] at hj
            exact Option.noConfusion hj
          have hrest : matrixMin rest = some m := by
            have h' : omin (rowMin row) (matrixMin rest) = some m := h
            cases he : rowMin row with
            | none => rw [he] at h'; simpa [omin] using h'
            | some x =>
                rw [he] at h'
                cases hr : matrixMin rest with
                | none =>
                    rw [hr] at h'
                    simp only [omin] at h'
                    exact absurd (he.trans h') hrow
                | some y =>
                    rw [hr] at h'
                    simp only [omin, Option.some.injEq] at h'
                    rcases min_choice x y with hc | hc <;> rw [hc] at h'
                    · exact absurd (he.trans (congrArg some h')) hrow
                    · rw [h']
          obtain ⟨p, hp⟩ := ih m hrest
          exact ⟨(p.1 + 1, p.2), by simp [findPos, hf, hp]⟩

lemma findPos_getE (M : List (List (Option α))) :
    ∀ (v : α) (i j : Nat), findPos M v = some (i, j) → getE M i j = some v := by
  induction M with
  | nil => intro v i j h; simp [findPos] at h
  | cons row rest ih =>
      intro v i j h
      simp only [findPos] at h
      cases hf : rowFind row v with
      | some j' =>
          rw [hf] at h
          simp only [Option.some.injEq, Prod.mk.injEq] at h
          obtain ⟨rfl, rfl⟩ := h
          simpa [getE, List.getD] using rowFind_getD row v j' hf
      | none =>
          rw [hf] at h
          cases hp : findPos rest v with
          | none => rw [hp] at h; simp at h
          | some p =>
              rw [hp] at h
              simp only [Option.map_some, Option.some.injEq, Prod.mk.injEq] at h
              obtain ⟨rfl, rfl⟩ := h
              simpa [getE, List.getD] using ih v p.1 p.2 (by rw [hp])

lemma getD_map_none (row : List (Option α)) (c : Nat) :
    (row.map fun _ => (none : Option α)).getD c none = none := by
  induction row generalizing c with
  | nil => rfl
  | cons e rest ih => cases c with
      | zero => rfl
      | succ c => simpa [List.getD_cons_succ] using ih c

lemma getE_maskRow (M : List (List (Option α))) :
    ∀ (i r c : Nat), getE (maskRow M i) r c =
      if r = i then none else getE M r c := by
  induction M with
  | nil =>
      intro i r c
      split <;> simp [maskRow, getE, List.getD]
  | cons row rest ih =>
      intro i r c
      cases i with
      | zero =>
          cases r with
          | zero => simpa [maskRow, getE, List.getD] using getD_map_none row c
          | succ r => simp [maskRow, getE, List.getD]
      | succ i =>
          cases r with
          | zero => simp [maskRow, getE, List.getD]
          | succ r =>
              have := ih i r c
              simp only [maskRow, getE, List.getD] at this ⊢
              simpa [Nat.succ_inj] using this

lemma maskCol_getD (row : List (Option α)) :
    ∀ (j c : Nat), (maskCol row j).getD c none =
      if c = j then none else row.getD c none := by
  induction row with
  | nil =>
      intro j c
      split <;> simp [maskCol, List.getD]
  | cons e rest ih =>
      intro j c
      cases j with
      | zero =>
          cases c with
          | zero => simp [maskCol, List.getD]
          | succ c => simp [maskCol, List.getD_cons_succ]
      | succ j =>
          cases c with
          | zero => simp [maskCol, List.getD]
          | succ c =>
              have := ih j c
              simp only [maskCol, List.getD_cons_succ] at this ⊢
              simpa [Nat.succ_inj] using this

lemma getE_mapMaskCol (M : List (List (Option α))) :
    ∀ (j r c : Nat), getE (M.map fun row => maskCol row j) r c =
      if c = j then none else getE M r c := by
  induction M with
  | nil =>
      intro j r c
      split <;> simp [getE, List.getD]
  | cons row rest ih =>
      intro j r c
      cases r with
      | zero => simpa [getE, List.getD] using maskCol_getD row j c
      | succ r => simpa [getE, List.getD] using ih j r c

lemma getE_maskRowCol (M : List (List (Option α))) (i j r c : Nat) :
    getE (maskRowCol M i j) r c =
      if r = i ∨ c = j then none else getE M r c := by
  rw [maskRowCol, getE_maskRow, getE_mapMaskCol]
  by_cases hr : r = i <;> by_cases hc : c = j <;> simp [hr, hc]

lemma getE_maskRowCol_some (M : List (List (Option α))) (i j r c : Nat) (v : α)
    (h : getE (maskRowCol M i j) r c = some v) :
    getE M r c = some v ∧ r ≠ i ∧ c ≠ j := by
  rw [getE_maskRowCol] at h
  by_cases hr : r = i
  · simp [hr] at h
  · by_cases hc : c = j
    · simp [hc] at h
    · exact ⟨by simpa [hr, hc] using h, hr, hc⟩

lemma getE_usedMask_some (pairs : List (Nat × Nat)) :
    ∀ (M : List (List (Option α))) (r c : Nat) (v : α),
      getE (usedMask M pairs) r c = some v → getE M r c = some v := by
  induction pairs with
  | nil => intro M r c v h; exact h
  | cons p rest ih =>
      intro M r c v h
      exact (getE_maskRowCol_some M p.1 p.2 r c v (ih _ r c v h)).1

lemma getD_map_some (row : List α) :
    ∀ c : Nat, (row.map some).getD c none = row.get? c := by
  induction row with
  | nil => intro c; rfl
  | cons e rest ih =>
      intro c
      cases c with
      | zero => rfl
      | succ c => simpa [List.getD_cons_succ] using ih c

lemma getE_toMasked (D : List (List α)) :
    ∀ (r c : Nat), getE (toMasked D) r c = getQ D r c := by
  induction D with
  | nil => intro r c; simp [toMasked, getQ, getE, List.getD]
  | cons row rest ih =>
      intro r c
      cases r with
      | zero => simpa [toMasked, getQ, getE, List.getD] using getD_map_some row c
      | succ r => simpa [toMasked, getQ, getE, List.getD] using ih r c

lemma countRow_cons (e : Option α) (rest : List (Option α)) :
    countRow (e :: rest) = (if e.isSome then 1 else 0) + countRow rest := by
  cases e <;> simp [countRow, List.filter, Nat.add_comm]

lemma countRow_maskCol_le (row : List (Option α)) :
    ∀ j : Nat, countRow (maskCol row j) ≤ countRow row := by
  induction row with
  | nil => intro j; simp [maskCol]
  | cons e rest ih =>
      intro j
      cases j with
      | zero => cases e <;> (simp [maskCol, countRow_cons] <;> omega)
      | succ j =>
          simp only [maskCol, countRow_cons]
          exact Nat.add_le_add (le_refl _) (ih j)

lemma countRow_maskCol_lt (row : List (Option α)) :
    ∀ (j : Nat) (v : α), row.getD j none = some v →
      countRow (maskCol row j) < countRow row := by
  induction row with
  | nil => intro j v h; simp [List.getD] at h
  | cons e rest ih =>
      intro j v h
      cases j with
      | zero =>
          simp only [List.getD_cons_zero] at h
          subst h
          simp [maskCol, countRow_cons] <;> omega
      | succ j =>
          simp only [List.getD_cons_succ] at h
          simp only [maskCol, countRow_cons]
          exact Nat.add_lt_add_left (ih j v h) _

lemma countRow_map_none (row : List (Option α)) :
    countRow (row.map fun _ => (none : Option α)) = 0 := by
  simp [countRow, List.filter_eq_nil_iff]

lemma countSome_cons (row : List (Option α)) (rest : List (List (Option α))) :
    countSome (row :: rest) = countRow row + countSome rest := by
  simp [countSome]

lemma countSome_mapMaskCol_le (M : List (List (Option α))) (j : Nat) :
    countSome (M.map fun row => maskCol row j) ≤ countSome M := by
  induction M with
  | nil => simp
  | cons row rest ih =>
      simp only [List.map_cons, countSome_cons]
      exact Nat.add_le_add (countRow_maskCol_le row j) ih

lemma countSome_mapMaskCol_lt (M : List (List (Option α))) :
    ∀ (i j : Nat) (v : α), getE M i j = some v →
      countSome (M.map fun row => maskCol row j) < countSome M := by
  induction M with
  | nil => intro i j v h; simp [getE, List.getD] at h
  | cons row rest ih =>
      intro i j v h
      cases i with
      | zero =>
          have hrow : row.getD j none = some v := by simpa [getE, List.getD] using h
          simp only [List.map_cons, countSome_cons]
          exact Nat.add_lt_add_of_lt_of_le (countRow_maskCol_lt row j v hrow)
            (countSome_mapMaskCol_le rest j)
      | succ i =>
          have h' : getE rest i j = some v := by simpa [getE, List.getD] using h
          simp only [List.map_cons, countSome_cons]
          exact Nat.add_lt_add_of_le_of_lt (countRow_maskCol_le row j) (ih i j v h')

lemma countSome_maskRow_le (M : List (List (Option α))) :
    ∀ i : Nat, countSome (maskRow M i) ≤ countSome M := by
  induction M with
  | nil => intro i; simp [maskRow]
  | cons row rest ih =>
      intro i
      cases i with
      | zero =>
          simp only [maskRow, countSome_cons, countRow_map_none]
          omega
      | succ i =>
          simp only [maskRow, countSome_cons]
          exact Nat.add_le_add (le_refl _) (ih i)

lemma countSome_maskRowCol_lt (M : List (List (Option α))) (i j : Nat) (v : α)
    (h : getE M i j = some v) :
    countSome (maskRowCol M i j) < countSome M :=
  lt_of_le_of_lt (countSome_maskRow_le _ i) (countSome_mapMaskCol_lt M i j v h)

lemma usedMask_cons (M : List (List (Option α))) (p : Nat × Nat)
    (rest : List (Nat × Nat)) :
    usedMask M (p :: rest) = usedMask (maskRowCol M p.1 p.2) rest := rfl

lemma greedyMatchAux_mem (maxd : α) :
    ∀ (fuel : Nat) (A : List (List (Option α))),
      ∀ p ∈ greedyMatchAux maxd fuel A,
        ∃ v, getE A p.1 p.2 = some v ∧ v ≤ maxd := by
  intro fuel
  induction fuel with
  | zero => intro A p hp; simp [greedyMatchAux] at hp
  | succ fuel ih =>
      intro A p hp
      cases hm : matrixMin A with
      | none => simp [greedyMatchAux, hm] at hp
      | some v =>
          by_cases hv : maxd < v
          · simp [greedyMatchAux, hm, hv] at hp
          · cases hf : findPos A v with
            | none => simp [greedyMatchAux, hm, hv, hf] at hp
            | some q =>
                obtain ⟨i, j⟩ := q
                simp only [greedyMatchAux, hm, if_neg hv, hf] at hp
                rcases List.mem_cons.mp hp with rfl | hp
                · exact ⟨v, findPos_getE A v i j hf, not_lt.mp hv⟩
                · obtain ⟨w, hw, hwle⟩ := ih (maskRowCol A i j) p hp
                  exact ⟨w, (getE_maskRowCol_some A i j p.1 p.2 w hw).1, hwle⟩

lemma greedyMatchAux_nodup (maxd : α) :
    ∀ (fuel : Nat) (A : List (List (Option α))),
      ((greedyMatchAux maxd fuel A).map Prod.fst).Nodup ∧
      ((greedyMatchAux maxd fuel A).map Prod.snd).Nodup := by
  intro fuel
  induction fuel with
  | zero => intro A; simp [greedyMatchAux]
  | succ fuel ih =>
      intro A
      cases hm : matrixMin A with
      | none => simp [greedyMatchAux, hm]
      | some v =>
          by_cases hv : maxd < v
          · simp [greedyMatchAux, hm, hv]
          · cases hf : findPos A v with
            | none => simp [greedyMatchAux, hm, hv, hf]
            | some q =>
                obtain ⟨i, j⟩ := q
                simp only [greedyMatchAux, hm, if_neg hv, hf, List.map_cons]
                obtain ⟨ih1, ih2⟩ := ih (maskRowCol A i j)
                constructor
                · refine List.nodup_cons.mpr ⟨?_, ih1⟩
                  intro hmem
                  obtain ⟨p, hp, hp1⟩ := List.mem_map.mp hmem
                  obtain ⟨w, hw, _⟩ := greedyMatchAux_mem maxd fuel _ p hp
                  exact (getE_maskRowCol_some A i j p.1 p.2 w hw).2.1 hp1
                · refine List.nodup_cons.mpr ⟨?_, ih2⟩
                  intro hmem
                  obtain ⟨p, hp, hp2⟩ := List.mem_map.mp hmem
                  obtain ⟨w, hw, _⟩ := greedyMatchAux_mem maxd fuel _ p hp
                  exact (getE_maskRowCol_some A i j p.1 p.2 w hw).2.2 hp2

lemma greedyMatchAux_kth (maxd : α) :
    ∀ (fuel : Nat) (A : List (List (Option α))) (k : Nat) (p : Nat × Nat),
      (greedyMatchAux maxd fuel A).get? k = some p →
      ∃ v, matrixMin (usedMask A ((greedyMatchAux maxd fuel A).take k)) = some v ∧
        getE A p.1 p.2 = some v := by
  intro fuel
  induction fuel with
  | zero => intro A k p h; simp [greedyMatchAux] at h
  | succ fuel ih =>
      intro A k p h
      cases hm : matrixMin A with
      | none => simp [greedyMatchAux, hm] at h
      | some v =>
          by_cases hv : maxd < v
          · simp [greedyMatchAux, hm, hv] at h
          · cases hf : findPos A v with
            | none => simp [greedyMatchAux, hm, hv, hf] at h
            | some q =>
                obtain ⟨i, j⟩ := q
                simp only [greedyMatchAux, hm, if_neg hv, hf] at h ⊢
                cases k with
                | zero =>
                    simp only [List.get?_cons_zero, Option.some.injEq] at h
                    subst h
                    exact ⟨v, hm, findPos_getE A v i j hf⟩
                | succ k =>
                    simp only [List.get?_cons_succ] at h
                    obtain ⟨w, hw1, hw2⟩ := ih (maskRowCol A i j) k p h
                    refine ⟨w, ?_, (getE_maskRowCol_some A i j _ _ w hw2).1⟩
                    simpa [List.take_cons, usedMask_cons] using hw1

lemma greedyMatchAux_stop (maxd : α) :
    ∀ (fuel : Nat) (A : List (List (Option α))), countSome A < fuel →
      ∀ v, matrixMin (usedMask A (greedyMatchAux maxd fuel A)) = some v →
        maxd < v := by
  intro fuel
  induction fuel with
  | zero => intro A hfuel; omega
  | succ fuel ih =>
      intro A hfuel v hv
      cases hm : matrixMin A with
      | none =>
          simp only [greedyMatchAux, hm, usedMask, List.foldl_nil] at hv
          exact Option.noConfusion hv
      | some m =>
          by_cases hlt : maxd < m
          · simp only [greedyMatchAux, hm, if_pos hlt, usedMask, List.foldl_nil] at hv
            obtain rfl : m = v := by simpa using hv
            exact hlt
          · cases hf : findPos A m with
            | none =>
                obtain ⟨p, hp⟩ := matrixMin_findPos A m hm
                rw [hf] at hp
                exact Option.noConfusion hp
            | some q =>
                obtain ⟨i, j⟩ := q
                simp only [greedyMatchAux, hm, if_neg hlt, hf, usedMask_cons] at hv
                have hdec : countSome (maskRowCol A i j) < countSome A :=
                  countSome_maskRowCol_lt A i j m (findPos_getE A m i j hf)
                exact ih (maskRowCol A i j) (by omega) v hv

end GreedyMatchLemmas

/-! ### Claim theorems for the greedy matcher -/

/-- C8 (amended): every accepted pair lies at an entry of the distance
matrix whose value is at most the threshold; no row index and no column
index is used twice; the `k`-th pair always attains the global minimum of
the matrix restricted to rows and columns not used by earlier pairs; and
matching stops exactly when no remaining distance is at or below the
threshold (the source breaks only on `min_val > max_distance`, so a
distance equal to the threshold is still matched). -/
theorem C8_greedy_match_spec {α : Type} [LinearOrder α]
    (D : List (List α)) (maxd : α) :
    (∀ p ∈ greedy_match D maxd, ∃ d, getQ D p.1 p.2 = some d ∧ d ≤ maxd) ∧
    ((greedy_match D maxd).map Prod.fst).Nodup ∧
    ((greedy_match D maxd).map Prod.snd).Nodup ∧
    (∀ (k : Nat) (p : Nat × Nat), (greedy_match D maxd).get? k = some p →
      ∃ d, matrixMin (usedMask (toMasked D) ((greedy_match D maxd).take k)) = some d ∧
        getQ D p.1 p.2 = some d) ∧
    (∀ d, matrixMin (usedMask (toMasked D) (greedy_match D maxd)) = some d →
      maxd < d) := by
  refine ⟨?_, ?_, ?_, ?_, ?_⟩
  · intro p hp
    obtain ⟨v, hv, hvle⟩ := greedyMatchAux_mem maxd _ (toMasked D) p hp
    exact ⟨v, (getE_toMasked D p.1 p.2) ▸ hv, hvle⟩
  · exact (greedyMatchAux_nodup maxd _ (toMasked D)).1
  · exact (greedyMatchAux_nodup maxd _ (toMasked D)).2
  · intro k p hp
    obtain ⟨v, hv1, hv2⟩ := greedyMatchAux_kth maxd _ (toMasked D) k p hp
    exact ⟨v, hv1, (getE_toMasked D _ _) ▸ hv2⟩
  · exact greedyMatchAux_stop maxd _ (toMasked D) (Nat.lt_succ_self _)

/-- C8 counterexample: with a single distance exactly equal to the
threshold, no distance strictly below the threshold exists, yet the matcher
still accepts the pair instead of stopping (the loop breaks only when the
minimum strictly exceeds the threshold). -/
theorem C8_counterexample :
    greedy_match [[(50 : ℤ)]] 50 = [(0, 0)] ∧ ¬ ((50 : ℤ) < 50) :=
  ⟨by decide, by decide⟩

/-! ### `counting_logic.py`: `TrackedPerson` and `CentroidTracker`

Wall-clock instants (`time.time()`) are modelled as whole seconds (`ℤ`),
threaded as an explicit `now` argument.  Distances are represented squared
(`ℤ`): the source compares `math.sqrt`-distances against `max_distance`;
since square root is strictly monotone on non-negatives, comparing squared
distances against `max_distance ^ 2` makes exactly the same decisions,
including ties and the row-major argmin order.  The disappearance test
`(now - last_seen) > max_disappeared / 30.0` is likewise scaled by `30`
to the equivalent integer comparison `30 * (now - last_seen) > max_disappeared`. -/

/-- One tracked person (`TrackedPerson` dataclass). -/
structure TrackedPerson where
  track_id : Nat
  centroids : List (Int × Int)
  last_seen : ℤ
  crossed_line : Bool := false
  direction : Option String := none
  deriving Repr, DecidableEq

/-- `TrackedPerson.update_position`: append the new centroid and keep only
the 30 most recent positions (the deque's `maxlen=30` plus the explicit
`popleft` give exactly this bound). -/
def update_position (p : TrackedPerson) (centroid : Int × Int) (now : ℤ) :
    TrackedPerson :=
  let cs := p.centroids ++ [centroid]
  { p with centroids := if 30 < cs.length then cs.drop 1 else cs, last_seen := now }

/-- `CentroidTracker` state.  `tracks` models the insertion-ordered dict. -/
structure CentroidTracker where
  next_id : Nat
  tracks : List (Nat × TrackedPerson)
  max_disappeared : Nat
  max_distance : ℤ
  deriving Repr, DecidableEq

/-- `CentroidTracker.__init__` (source defaults `30` frames, `50` pixels). -/
def initCentroidTracker (max_disappeared : Nat := 30) (max_distance : ℤ := 50) :
    CentroidTracker :=
  { next_id := 0, tracks := [], max_disappeared := max_disappeared,
    max_distance := max_distance }

/-- `CentroidTracker.register`: new track under the next fresh id. -/
def register (t : CentroidTracker) (centroid : Int × Int) (now : ℤ) :
    CentroidTracker :=
  { t with
    tracks := t.tracks ++
      [(t.next_id,
        { track_id := t.next_id, centroids := [centroid], last_seen := now })],
    next_id := t.next_id + 1 }

/-- The disappearance test
`(current_time - track.last_seen) > max_disappeared / 30.0`, scaled by 30. -/
def expired (max_disappeared : Nat) (now : ℤ) (tr : TrackedPerson) : Bool :=
  decide ((max_disappeared : ℤ) < 30 * (now - tr.last_seen))

/-- `CentroidTracker._compute_distances`, with squared Euclidean distances
(see the section comment). -/
def compute_distances (centroids1 centroids2 : List (Int × Int)) :
    List (List ℤ) :=
  centroids1.map fun c1 => centroids2.map fun c2 =>
    (c1.1 - c2.1) ^ 2 + (c1.2 - c2.2) ^ 2

/-- `track.centroids[-1]` (tracks always hold at least one centroid). -/
def lastCentroid (p : TrackedPerson) : Int × Int := p.centroids.getLast?.getD (0, 0)

/-- `self.tracks[track_id].update_position(centroid)`: in-place mutation of
one entry of the dict. -/
def updateTrackPos (tracks : List (Nat × TrackedPerson)) (id : Nat)
    (c : Int × Int) (now : ℤ) : List (Nat × TrackedPerson) :=
  tracks.map fun kv => if kv.1 = id then (kv.1, update_position kv.2 c now) else kv

/-- `CentroidTracker.update`. -/
def tracker_update (t : CentroidTracker) (detections : List (Int × Int))
    (now : ℤ) : CentroidTracker :=
  if detections.isEmpty then
    { t with tracks := t.tracks.filter fun kv => !expired t.max_disappeared now kv.2 }
  else if t.tracks.isEmpty then
    detections.foldl (fun acc c => register acc c now) t
  else
    let track_ids := t.tracks.map Prod.fst
    let track_centroids := t.tracks.map fun kv => lastCentroid kv.2
    let distances := compute_distances track_centroids detections
    let matched_pairs := greedy_match distances (t.max_distance ^ 2)
    let tracks1 := matched_pairs.foldl
      (fun acc pr =>
        updateTrackPos acc (track_ids.getD pr.1 0) (detections.getD pr.2 (0, 0)) now)
      t.tracks
    let matched_track_ids := matched_pairs.map fun pr => track_ids.getD pr.1 0
    let matched_det_ids := matched_pairs.map Prod.snd
    let t2 := detections.enum.foldl
      (fun acc ic => if ic.1 ∈ matched_det_ids then acc else register acc ic.2 now)
      { t with tracks := tracks1 }
    { t2 with tracks := t2.tracks.filter fun kv =>
        !(decide (kv.1 ∈ track_ids) && !decide (kv.1 ∈ matched_track_ids) &&
          expired t.max_disappeared now kv.2) }

/-! ### `counting_logic.py`: `EntryExitCounter` -/

/-- `EntryExitCounter` state. -/
structure EntryExitCounter where
  counting_line_y : Int
  frame_height : Int := 480
  entry_direction : String := "down"
  tracker : CentroidTracker
  total_entries : ℤ := 0
  total_exits : ℤ := 0
  current_occupancy : ℤ := 0
  track_states : List (Nat × String) := []
  deriving Repr, DecidableEq

/-- `EntryExitCounter.__init__`. -/
def initCounter (counting_line_y : Int) (frame_height : Int := 480)
    (entry_direction : String := "down") : EntryExitCounter :=
  { counting_line_y := counting_line_y, frame_height := frame_height,
    entry_direction := entry_direction,
    tracker := initCentroidTracker 30 50 }

/-- State threaded through the per-track crossing loop of
`EntryExitCounter.update`: the side map and the counters. -/
structure CrossState where
  track_states : List (Nat × String)
  new_entries : ℤ := 0
  new_exits : ℤ := 0
  total_entries : ℤ
  total_exits : ℤ
  current_occupancy : ℤ
  deriving Repr, DecidableEq

/-- One iteration of the crossing loop for the track `(track_id, track)`.
Returns the updated loop state, the (possibly flag-updated) person, and the
crossing event emitted for this track, if any (`some "entry"`/`some "exit"`
stands for the dwell-tracker notification and the counter increments).
The final `else` branch mirrors states whose recorded sides are not the two
reachable values; it is unreachable from well-formed side maps. -/
def processItem (line_y : Int) (entry_dir : String) (st : CrossState)
    (track_id : Nat) (track : TrackedPerson) :
    CrossState × TrackedPerson × Option String :=
  if track.centroids.length < 2 then (st, track, none)
  else
    let current_y := (track.centroids.getLast?.getD (0, 0)).2
    let current_side := if current_y < line_y then "above" else "below"
    match lookupA st.track_states track_id with
    | none =>
        ({ st with track_states := insertA st.track_states track_id current_side },
         track, none)
    | some previous_side =>
        if previous_side ≠ current_side ∧ track.crossed_line = false then
          if previous_side = "above" ∧ current_side = "below" then
            if entry_dir = "down" then
              ({ st with
                  new_entries := st.new_entries + 1,
                  total_entries := st.total_entries + 1,
                  current_occupancy := st.current_occupancy + 1,
                  track_states := insertA st.track_states track_id current_side },
               { track with crossed_line := true, direction := some "entry" },
               some "entry")
            else
              ({ st with
                  new_exits := st.new_exits + 1,
                  total_exits := st.total_exits + 1,
                  current_occupancy := st.current_occupancy - 1,
                  track_states := insertA st.track_states track_id current_side },
               { track with crossed_line := true, direction := some "exit" },
               some "exit")
          else if previous_side = "below" ∧ current_side = "above" then
            if entry_dir = "down" then
              ({ st with
                  new_exits := st.new_exits + 1,
                  total_exits := st.total_exits + 1,
                  current_occupancy := st.current_occupancy - 1,
                  track_states := insertA st.track_states track_id current_side },
               { track with crossed_line := true, direction := some "exit" },
               some "exit")
            else
              ({ st with
                  new_entries := st.new_entries + 1,
                  total_entries := st.total_entries + 1,
                  current_occupancy := st.current_occupancy + 1,
                  track_states := insertA st.track_states track_id current_side },
               { track with crossed_line := true, direction := some "entry" },
               some "entry")
          else
            ({ st with track_states := insertA st.track_states track_id current_side },
             { track with crossed_line := true }, none)
        else
          ({ st with track_states := insertA st.track_states track_id current_side },
           track, none)

/-- The crossing loop over all tracks, in dict order.  Returns the final
loop state, the tracks (with crossing flags written back), and the emitted
crossing events in order. -/
def processTracks (line_y : Int) (entry_dir : String) :
    List (Nat × TrackedPerson) → CrossState →
      CrossState × List (Nat × TrackedPerson) × List (Nat × String)
  | [], st => (st, [], [])
  | kv :: rest, st =>
      let r1 := processItem line_y entry_dir st kv.1 kv.2
      let r2 := processTracks line_y entry_dir rest r1.1
      (r2.1, (kv.1, r1.2.1) :: r2.2.1,
        (match r1.2.2 with
         | some d => [(kv.1, d)]
         | none => []) ++ r2.2.2)

/-- `EntryExitCounter.update`: run the tracker, run the crossing loop, then
drop side states of deregistered tracks.  Returns the updated counter, the
`(new_entries, new_exits)` return value, and the emitted crossing events. -/
def counter_update (c : EntryExitCounter) (detections : List (Int × Int))
    (now : ℤ) : EntryExitCounter × (ℤ × ℤ) × List (Nat × String) :=
  let trk := tracker_update c.tracker detections now
  let st0 : CrossState :=
    { track_states := c.track_states, total_entries := c.total_entries,
      total_exits := c.total_exits, current_occupancy := c.current_occupancy }
  let r := processTracks c.counting_line_y c.entry_direction trk.tracks st0
  let active_ids := r.2.1.map Prod.fst
  ({ c with
      tracker := { trk with tracks := r.2.1 },
      total_entries := r.1.total_entries,
      total_exits := r.1.total_exits,
      current_occupancy := r.1.current_occupancy,
      track_states := r.1.track_states.filter fun kv => decide (kv.1 ∈ active_ids) },
   (r.1.new_entries, r.1.new_exits), r.2.2)

/-- `EntryExitCounter.get_occupancy`: clamp at zero at read time. -/
def get_occupancy (c : EntryExitCounter) : ℤ := max 0 c.current_occupancy

/-- `EntryExitCounter.get_stats`. -/
def get_stats (c : EntryExitCounter) : OccStats :=
  { current_occupancy := get_occupancy c,
    total_entries := c.total_entries,
    total_exits := c.total_exits,
    active_tracks := (c.tracker.tracks.length : ℤ) }

/-- `EntryExitCounter.reset`: zero the counters, fresh default tracker,
empty side map. -/
def counter_reset (c : EntryExitCounter) : EntryExitCounter :=
  { c with
    total_entries := 0, total_exits := 0, current_occupancy := 0,
    tracker := initCentroidTracker, track_states := [] }

/-- A call against the counter: one `update(detections)` at a given time, or
a `reset()`. -/
inductive CounterOp where
  | update (detections : List (Int × Int)) (now : ℤ)
  | reset
  deriving Repr, DecidableEq

/-- Run a sequence of calls against the counter. -/
def runOps : EntryExitCounter → List CounterOp → EntryExitCounter
  | c, [] => c
  | c, CounterOp.update d n :: rest => runOps (counter_update c d n).1 rest
  | c, CounterOp.reset :: rest => runOps (counter_reset c) rest

/-- Run a sequence of `update` calls, collecting every emitted crossing
event in order. -/
def runEvents : EntryExitCounter → List (List (Int × Int) × ℤ) → List (Nat × String)
  | _, [] => []
  | c, f :: rest => (counter_update c f.1 f.2).2.2 ++
      runEvents (counter_update c f.1 f.2).1 rest

/-- Number of crossing events carrying a given track id. -/
def countEventsFor (id : Nat) (events : List (Nat × String)) : Nat :=
  (events.filter fun e => decide (e.1 = id)).length

/-! ### Counter bookkeeping lemmas -/

lemma processItem_balance (ly : Int) (ed : String) (st : CrossState)
    (id : Nat) (tr : TrackedPerson) :
    (processItem ly ed st id tr).1.current_occupancy -
        ((processItem ly ed st id tr).1.total_entries -
          (processItem ly ed st id tr).1.total_exits) =
      st.current_occupancy - (st.total_entries - st.total_exits) := by
  unfold processItem
  dsimp only
  repeat' split
  all_goals simp
  all_goals omega

lemma processTracks_balance (ly : Int) (ed : String) :
    ∀ (items : List (Nat × TrackedPerson)) (st : CrossState),
      (processTracks ly ed items st).1.current_occupancy -
          ((processTracks ly ed items st).1.total_entries -
            (processTracks ly ed items st).1.total_exits) =
        st.current_occupancy - (st.total_entries - st.total_exits) := by
  intro items
  induction items with
  | nil => intro st; rfl
  | cons kv rest ih =>
      intro st
      simp only [processTracks]
      rw [ih]
      exact processItem_balance ly ed st kv.1 kv.2

/-- The balance invariant of the counter: the signed occupancy always equals
entries minus exits. -/
def Balanced (c : EntryExitCounter) : Prop :=
  c.current_occupancy = c.total_entries - c.total_exits

lemma counter_update_balanced (c : EntryExitCounter) (dets : List (Int × Int))
    (now : ℤ) (h : Balanced c) : Balanced (counter_update c dets now).1 := by
  unfold Balanced at h ⊢
  simp only [counter_update]
  have := processTracks_balance c.counting_line_y c.entry_direction
    (tracker_update c.tracker dets now).tracks
    { track_states := c.track_states, total_entries := c.total_entries,
      total_exits := c.total_exits, current_occupancy := c.current_occupancy }
  simp only at this
  omega

lemma runOps_balanced (ops : List CounterOp) :
    ∀ c, Balanced c → Balanced (runOps c ops) := by
  induction ops with
  | nil => intro c h; exact h
  | cons op rest ih =>
      intro c h
      cases op with
      | update d n => exact ih _ (counter_update_balanced c d n h)
      | reset => exact ih _ (by simp [Balanced, counter_reset])

/-- C10: in `EntryExitCounter`, the internal (unclamped) `current_occupancy`
equals `total_entries - total_exits` after construction and after any
sequence of `update` and `reset` calls. -/
theorem C10_occupancy_balance (ly fh : Int) (ed : String) (ops : List CounterOp) :
    (runOps (initCounter ly fh ed) ops).current_occupancy =
      (runOps (initCounter ly fh ed) ops).total_entries -
        (runOps (initCounter ly fh ed) ops).total_exits :=
  runOps_balanced ops (initCounter ly fh ed) (by simp [Balanced, initCounter])

/-- C1 (amended): after any sequence of `update`/`reset` calls the value
returned by `get_occupancy` (and the `current_occupancy` field of
`get_stats`) is non-negative, because it is clamped at read time via
`max(0, ...)`; the internal running counter itself is not clamped when
decremented (see the counterexample). -/
theorem C1_occupancy_nonneg (ly fh : Int) (ed : String) (ops : List CounterOp) :
    0 ≤ get_occupancy (runOps (initCounter ly fh ed) ops) ∧
    (get_stats (runOps (initCounter ly fh ed) ops)).current_occupancy =
      get_occupancy (runOps (initCounter ly fh ed) ops) :=
  ⟨le_max_left 0 _, rfl⟩

/-- C1 counterexample: a track first seen below the line (y=310) that moves
above it (y=290) fires an exit from a fresh counter, driving the internal
running counter to `-1`: the counter is not clamped when decremented, only
the value returned by `get_occupancy` is clamped (to `0`). -/
theorem C1_counterexample :
    (runOps (initCounter 300)
      [CounterOp.update [(0, 310)] 0, CounterOp.update [(0, 310)] 0,
       CounterOp.update [(0, 290)] 0]).current_occupancy = -1 ∧
    get_occupancy (runOps (initCounter 300)
      [CounterOp.update [(0, 310)] 0, CounterOp.update [(0, 310)] 0,
       CounterOp.update [(0, 290)] 0]) = 0 :=
  ⟨by decide, by decide⟩

/-! ### Association-list and fold lemmas for the tracker proofs -/

lemma lookupA_mem {β : Type} :
    ∀ (l : List (Nat × β)) (k : Nat) (v : β), lookupA l k = some v → (k, v) ∈ l := by
  intro l
  induction l with
  | nil => intro k v h; simp [lookupA] at h
  | cons kv rest ih =>
      intro k v h
      obtain ⟨k0, v0⟩ := kv
      simp only [lookupA] at h
      by_cases hk : k0 = k
      · rw [if_pos hk] at h
        obtain rfl : v0 = v := by simpa using h
        subst hk
        exact List.mem_cons_self _ _
      · rw [if_neg hk] at h
        exact List.mem_cons_of_mem _ (ih k v h)

lemma mem_lookupA {β : Type} :
    ∀ (l : List (Nat × β)), (l.map Prod.fst).Nodup →
      ∀ (k : Nat) (v : β), (k, v) ∈ l → lookupA l k = some v := by
  intro l
  induction l with
  | nil => intro _ k v h; simp at h
  | cons kv rest ih =>
      intro hn k v h
      obtain ⟨k0, v0⟩ := kv
      simp only [List.map_cons, List.nodup_cons] at hn
      rcases List.mem_cons.mp h with heq | hmem
      · obtain ⟨rfl, rfl⟩ := Prod.mk.injEq .. ▸ heq
        simp [lookupA]
      · have hk : k0 ≠ k := by
          intro hk
          subst hk
          exact hn.1 (List.mem_map.mpr ⟨(k0, v), hmem, rfl⟩)
        simp only [lookupA, if_neg hk]
        exact ih hn.2 k v hmem

lemma lookupA_filter_none {β : Type} (q : Nat × β → Bool) :
    ∀ (l : List (Nat × β)) (k : Nat), lookupA l k = none →
      lookupA (l.filter q) k = none := by
  intro l
  induction l with
  | nil => intro k _; rfl
  | cons kv rest ih =>
      intro k h
      obtain ⟨k0, v0⟩ := kv
      simp only [lookupA] at h
      by_cases hk : k0 = k
      · rw [if_pos hk] at h; exact Option.noConfusion h
      · rw [if_neg hk] at h
        simp only [List.filter_cons]
        split
        · simp only [lookupA, if_neg hk]
          exact ih k h
        · exact ih k h

lemma lookupA_append {β : Type} :
    ∀ (l m : List (Nat × β)) (k : Nat),
      lookupA (l ++ m) k =
        match lookupA l k with
        | some v => some v
        | none => lookupA m k := by
  intro l
  induction l with
  | nil => intro m k; rfl
  | cons kv rest ih =>
      intro m k
      obtain ⟨k0, v0⟩ := kv
      by_cases hk : k0 = k <;> simp [lookupA, hk, ih]

lemma foldl_inv {σ β : Type} (P : σ → Prop) (step : σ → β → σ)
    (hstep : ∀ s b, P s → P (step s b)) :
    ∀ (items : List β) (s : σ), P s → P (items.foldl step s) := by
  intro items
  induction items with
  | nil => intro s h; exact h
  | cons b rest ih => intro s h; exact ih (step s b) (hstep s b h)

lemma update_position_flag (p : TrackedPerson) (c : Int × Int) (now : ℤ) :
    (update_position p c now).crossed_line = p.crossed_line := rfl

lemma updateTrackPos_keys (id : Nat) (c : Int × Int) (now : ℤ) :
    ∀ (l : List (Nat × TrackedPerson)),
      (updateTrackPos l id c now).map Prod.fst = l.map Prod.fst := by
  intro l
  induction l with
  | nil => rfl
  | cons kv rest ih =>
      show ((if kv.1 = id then (kv.1, update_position kv.2 c now) else kv) ::
          updateTrackPos rest id c now).map Prod.fst = kv.1 :: rest.map Prod.fst
      by_cases h : kv.1 = id
      · rw [if_pos h]; simp only [List.map_cons, ih]
      · rw [if_neg h]; simp only [List.map_cons, ih]

lemma lookupA_updateTrackPos (id : Nat) (c : Int × Int) (now : ℤ) :
    ∀ (l : List (Nat × TrackedPerson)) (k : Nat),
      lookupA (updateTrackPos l id c now) k =
        (lookupA l k).map fun tr => if k = id then update_position tr c now else tr := by
  intro l
  induction l with
  | nil => intro k; rfl
  | cons kv rest ih =>
      intro k
      obtain ⟨k0, v0⟩ := kv
      show lookupA ((if k0 = id then (k0, update_position v0 c now) else (k0, v0)) ::
          updateTrackPos rest id c now) k = _
      by_cases h0 : k0 = id
      · subst h0
        rw [if_pos rfl]
        show (if k0 = k then some (update_position v0 c now)
            else lookupA (updateTrackPos rest k0 c now) k) = _
        by_cases hk : k0 = k
        · subst hk
          rw [if_pos rfl]
          have hR : lookupA ((k0, v0) :: rest) k0 = some v0 := by simp [lookupA]
          rw [hR]
          simp
        · rw [if_neg hk, ih k]
          have hR : lookupA ((k0, v0) :: rest) k = lookupA rest k := by
            simp [lookupA, hk]
          rw [hR]
      · rw [if_neg h0]
        show (if k0 = k then some v0 else lookupA (updateTrackPos rest id c now) k) = _
        by_cases hk : k0 = k
        · subst hk
          rw [if_pos rfl]
          have hR : lookupA ((k0, v0) :: rest) k0 = some v0 := by simp [lookupA]
          rw [hR]
          simp [h0]
        · rw [if_neg hk, ih k]
          have hR : lookupA ((k0, v0) :: rest) k = lookupA rest k := by
            simp [lookupA, hk]
          rw [hR]

/-! ### Tracker invariants -/

/-- Well-formedness of the tracker dict: keys are unique (dict semantics)
and every key was assigned by a previous `register`, hence is below
`next_id`. -/
def TrackerWF (t : CentroidTracker) : Prop :=
  (t.tracks.map Prod.fst).Nodup ∧ ∀ k ∈ t.tracks.map Prod.fst, k < t.next_id

lemma register_wf (t : CentroidTracker) (c : Int × Int) (now : ℤ)
    (h : TrackerWF t) : TrackerWF (register t c now) := by
  obtain ⟨hn, hb⟩ := h
  constructor
  · simp only [register, List.map_append, List.map_cons, List.map_nil]
    rw [List.nodup_append]
    refine ⟨hn, List.nodup_singleton _, ?_⟩
    intro a ha hmem
    simp only [List.mem_singleton] at hmem
    subst hmem
    exact absurd (hb _ ha) (lt_irrefl _)
  · intro k hk
    simp only [register, List.map_append, List.map_cons, List.map_nil,
      List.mem_append, List.mem_singleton] at hk
    rcases hk with hk | hk
    · exact Nat.lt_succ_of_lt (hb k hk)
    · subst hk; exact Nat.lt_succ_self _

lemma lookupA_register (t : CentroidTracker) (c : Int × Int) (now : ℤ)
    (k : Nat) (hk : k < t.next_id) :
    lookupA (register t c now).tracks k = lookupA t.tracks k := by
  show lookupA (t.tracks ++ [(t.next_id, _)]) k = lookupA t.tracks k
  rw [lookupA_append]
  cases h : lookupA t.tracks k with
  | some v => rfl
  | none =>
      show lookupA [(t.next_id, _)] k = none
      simp [lookupA, Nat.ne_of_gt hk]

/-- Facts preserved by any fold whose steps either keep the tracker or
`register` a fresh track: well-formedness, monotone `next_id`, and
unchanged lookups for previously assigned ids. -/
lemma registerFold_facts {β : Type} (step : CentroidTracker → β → CentroidTracker)
    (hstep : ∀ s b, step s b = s ∨ ∃ c now, step s b = register s c now) :
    ∀ (items : List β) (t0 : CentroidTracker), TrackerWF t0 →
      TrackerWF (items.foldl step t0) ∧
      t0.next_id ≤ (items.foldl step t0).next_id ∧
      ∀ k, k < t0.next_id →
        lookupA (items.foldl step t0).tracks k = lookupA t0.tracks k := by
  intro items t0 h0
  have := foldl_inv
    (P := fun s => TrackerWF s ∧ t0.next_id ≤ s.next_id ∧
      ∀ k, k < t0.next_id → lookupA s.tracks k = lookupA t0.tracks k)
    step ?_ items t0 ⟨h0, le_refl _, fun _ _ => rfl⟩
  · exact this
  · intro s b hs
    obtain ⟨s1, s2, s3⟩ := hs
    rcases hstep s b with heq | ⟨c, now, heq⟩
    · rw [heq]; exact ⟨s1, s2, s3⟩
    · rw [heq]
      refine ⟨register_wf s c now s1, le_trans s2 (Nat.le_succ _), ?_⟩
      intro k hk
      rw [lookupA_register s c now k (lt_of_lt_of_le hk s2)]
      exact s3 k hk

/-- Facts about the matched-track position-update fold: keys are unchanged
and lookups are mapped through a `crossed_line`-preserving transform. -/
lemma applyMatched_facts (ids : List Nat) (dets : List (Int × Int)) (now : ℤ) :
    ∀ (pairs : List (Nat × Nat)) (l0 : List (Nat × TrackedPerson)),
      (pairs.foldl (fun acc pr =>
          updateTrackPos acc (ids.getD pr.1 0) (dets.getD pr.2 (0, 0)) now) l0).map
            Prod.fst = l0.map Prod.fst ∧
      (∀ k, lookupA (pairs.foldl (fun acc pr =>
          updateTrackPos acc (ids.getD pr.1 0) (dets.getD pr.2 (0, 0)) now) l0) k = none ↔
        lookupA l0 k = none) ∧
      (∀ k p', lookupA (pairs.foldl (fun acc pr =>
          updateTrackPos acc (ids.getD pr.1 0) (dets.getD pr.2 (0, 0)) now) l0) k = some p' →
        ∃ p, lookupA l0 k = some p ∧ p'.crossed_line = p.crossed_line) := by
  intro pairs
  induction pairs with
  | nil =>
      intro l0
      refine ⟨rfl, fun k => Iff.rfl, fun k p' h => ⟨p', h, rfl⟩⟩
  | cons pr rest ih =>
      intro l0
      simp only [List.foldl_cons]
      obtain ⟨k1, k2, k3⟩ := ih (updateTrackPos l0 (ids.getD pr.1 0) (dets.getD pr.2 (0, 0)) now)
      refine ⟨k1.trans (updateTrackPos_keys _ _ _ l0), ?_, ?_⟩
      · intro k
        rw [k2 k, lookupA_updateTrackPos]
        cases lookupA l0 k <;> simp
      · intro k p' h
        obtain ⟨q, hq, hflag⟩ := k3 k p' h
        rw [lookupA_updateTrackPos] at hq
        cases hl : lookupA l0 k with
        | none => rw [hl] at hq; exact Option.noConfusion hq
        | some p =>
            rw [hl] at hq
            have hq' : (if k = ids.getD pr.1 0 then
                update_position p (dets.getD pr.2 (0, 0)) now else p) = q :=
              Option.some.inj hq
            refine ⟨p, rfl, ?_⟩
            rw [hflag, ← hq']
            by_cases hid : k = ids.getD pr.1 0
            · rw [if_pos hid, update_position_flag]
            · rw [if_neg hid]

/-- Facts about the deregistration filter: keys stay unique, membership only
shrinks, and lookups can only disappear. -/
lemma filterTracks_facts (q : Nat × TrackedPerson → Bool)
    (l : List (Nat × TrackedPerson)) (hn : (l.map Prod.fst).Nodup) :
    ((l.filter q).map Prod.fst).Nodup ∧
    (∀ k ∈ (l.filter q).map Prod.fst, k ∈ l.map Prod.fst) ∧
    (∀ k, lookupA l k = none → lookupA (l.filter q) k = none) ∧
    (∀ k p', lookupA (l.filter q) k = some p' → lookupA l k = some p') := by
  refine ⟨hn.sublist ((List.filter_sublist l).map Prod.fst), ?_, ?_, ?_⟩
  · intro k hk
    exact ((List.filter_sublist l).map Prod.fst).mem hk
  · intro k h
    exact lookupA_filter_none q l k h
  · intro k p' h
    have hmem : (k, p') ∈ l.filter q := lookupA_mem _ k p' h
    exact mem_lookupA l hn k p' (List.mem_of_mem_filter hmem)

/-- Simulation facts for one `CentroidTracker.update` call: well-formedness
is preserved, `next_id` never decreases, ids that were never assigned stay
absent, and a surviving track keeps its `crossed_line` flag. -/
lemma tracker_update_sim (t : CentroidTracker) (dets : List (Int × Int)) (now : ℤ)
    (h : TrackerWF t) :
    TrackerWF (tracker_update t dets now) ∧
    t.next_id ≤ (tracker_update t dets now).next_id ∧
    (∀ id, id < t.next_id → lookupA t.tracks id = none →
      lookupA (tracker_update t dets now).tracks id = none) ∧
    (∀ id p', id < t.next_id → lookupA (tracker_update t dets now).tracks id = some p' →
      ∃ p, lookupA t.tracks id = some p ∧ p'.crossed_line = p.crossed_line) := by
  by_cases hd : dets.isEmpty = true
  · simp only [tracker_update, if_pos hd]
    obtain ⟨f1, f2, f3, f4⟩ :=
      filterTracks_facts (fun kv => !expired t.max_disappeared now kv.2) t.tracks h.1
    refine ⟨⟨f1, fun k hk => h.2 k (f2 k hk)⟩, le_refl _, ?_, ?_⟩
    · intro id _ hnone; exact f3 id hnone
    · intro id p' _ hs; exact ⟨p', f4 id p' hs, rfl⟩
  · by_cases ht : t.tracks.isEmpty = true
    · simp only [tracker_update, if_neg hd, if_pos ht]
      have htr : t.tracks = [] := by simpa using ht
      obtain ⟨g1, g2, g3⟩ := registerFold_facts (fun acc c => register acc c now)
        (fun _ b => Or.inr ⟨b, now, rfl⟩) dets t h
      refine ⟨g1, g2, ?_, ?_⟩
      · intro id hid _
        rw [g3 id hid, htr]
        rfl
      · intro id p' hid hs
        rw [g3 id hid, htr] at hs
        exact Option.noConfusion hs
    · simp only [tracker_update, if_neg hd, if_neg ht]
      set pairs := greedy_match
        (compute_distances (t.tracks.map fun kv => lastCentroid kv.2) dets)
        (t.max_distance ^ 2) with hpairs
      set tracks1 := pairs.foldl (fun acc pr =>
        updateTrackPos acc ((t.tracks.map Prod.fst).getD pr.1 0)
          (dets.getD pr.2 (0, 0)) now) t.tracks with htr1
      obtain ⟨s11, s12, s13⟩ := applyMatched_facts (t.tracks.map Prod.fst) dets now
        pairs t.tracks
      rw [← htr1] at s11 s12 s13
      have hwf1 : TrackerWF { t with tracks := tracks1 } := by
        refine ⟨?_, ?_⟩
        · show (tracks1.map Prod.fst).Nodup
          rw [s11]; exact h.1
        · intro k hk
          show k < t.next_id
          rw [show (tracks1.map Prod.fst) = t.tracks.map Prod.fst from s11] at hk
          exact h.2 k hk
      obtain ⟨s21, s22, s23⟩ := registerFold_facts
        (fun acc ic => if ic.1 ∈ pairs.map Prod.snd then acc else register acc ic.2 now)
        (fun s b => by
          by_cases hb : b.1 ∈ pairs.map Prod.snd
          · exact Or.inl (if_pos hb)
          · exact Or.inr ⟨b.2, now, if_neg hb⟩)
        dets.enum { t with tracks := tracks1 } hwf1
      set t2 := dets.enum.foldl
        (fun acc ic => if ic.1 ∈ pairs.map Prod.snd then acc else register acc ic.2 now)
        { t with tracks := tracks1 } with ht2
      obtain ⟨f1, f2, f3, f4⟩ := filterTracks_facts
        (fun kv => !(decide (kv.1 ∈ t.tracks.map Prod.fst) &&
          !decide (kv.1 ∈ pairs.map fun pr => (t.tracks.map Prod.fst).getD pr.1 0) &&
          expired t.max_disappeared now kv.2)) t2.tracks s21.1
      refine ⟨⟨f1, ?_⟩, s22, ?_, ?_⟩
      · intro k hk
        exact s21.2 k (f2 k hk)
      · intro id hid hnone
        apply f3
        rw [s23 id hid]
        exact (s12 id).mpr hnone
      · intro id p' hid hsome
        have h2 : lookupA t2.tracks id = some p' := f4 id p' hsome
        rw [s23 id hid] at h2
        exact s13 id p' h2

/-! ### Crossing-loop lemmas -/

lemma countEventsFor_append (id : Nat) (a b : List (Nat × String)) :
    countEventsFor id (a ++ b) = countEventsFor id a + countEventsFor id b := by
  simp [countEventsFor, List.filter_append]

lemma countEventsFor_nil (id : Nat) : countEventsFor id [] = 0 := rfl

lemma countEventsFor_single (id k : Nat) (d : String) :
    countEventsFor id [(k, d)] = if k = id then 1 else 0 := by
  by_cases h : k = id <;> simp [countEventsFor, h]

/-- A track already marked `crossed_line` passes through the loop body
untouched and emits no event (the crossing branch requires the flag to be
unset). -/
lemma processItem_of_flagged (ly : Int) (ed : String) (st : CrossState)
    (id : Nat) (tr : TrackedPerson) (h : tr.crossed_line = true) :
    (processItem ly ed st id tr).2.1 = tr ∧ (processItem ly ed st id tr).2.2 = none := by
  unfold processItem
  dsimp only
  split
  · exact ⟨rfl, rfl⟩
  · split
    · exact ⟨rfl, rfl⟩
    · rw [if_neg (fun hc => by rw [h] at hc; exact Bool.noConfusion hc.2)]
      exact ⟨rfl, rfl⟩

/-- Each loop body iteration either emits no event or marks its track
crossed in the returned person. -/
lemma processItem_event_or (ly : Int) (ed : String) (st : CrossState)
    (id : Nat) (tr : TrackedPerson) :
    (processItem ly ed st id tr).2.2 = none ∨
    (processItem ly ed st id tr).2.1.crossed_line = true := by
  unfold processItem
  dsimp only
  repeat' split
  all_goals first
    | exact Or.inl rfl
    | exact Or.inr rfl

lemma processTracks_keys (ly : Int) (ed : String) :
    ∀ (items : List (Nat × TrackedPerson)) (st : CrossState),
      (processTracks ly ed items st).2.1.map Prod.fst = items.map Prod.fst := by
  intro items
  induction items with
  | nil => intro st; rfl
  | cons kv rest ih =>
      intro st
      simp only [processTracks, List.map_cons]
      rw [ih]

lemma processTracks_absent (ly : Int) (ed : String) :
    ∀ (items : List (Nat × TrackedPerson)) (st : CrossState) (id : Nat),
      lookupA items id = none →
      countEventsFor id (processTracks ly ed items st).2.2 = 0 ∧
      lookupA (processTracks ly ed items st).2.1 id = none := by
  intro items
  induction items with
  | nil => intro st id _; exact ⟨rfl, rfl⟩
  | cons kv rest ih =>
      intro st id h
      obtain ⟨k0, v0⟩ := kv
      simp only [lookupA] at h
      by_cases hk : k0 = id
      · rw [if_pos hk] at h; exact Option.noConfusion h
      · rw [if_neg hk] at h
        obtain ⟨ih1, ih2⟩ := ih (processItem ly ed st k0 v0).1 id h
        constructor
        · simp only [processTracks, countEventsFor_append]
          cases hev : (processItem ly ed st k0 v0).2.2 <;>
            simp [hev, countEventsFor_nil, countEventsFor_single, hk, ih1]
        · simp only [processTracks]
          show lookupA ((k0, _) :: _) id = none
          simp only [lookupA, if_neg hk]
          exact ih2

lemma processTracks_flagged (ly : Int) (ed : String) :
    ∀ (items : List (Nat × TrackedPerson)) (st : CrossState) (id : Nat)
      (p : TrackedPerson),
      (items.map Prod.fst).Nodup →
      lookupA items id = some p → p.crossed_line = true →
      countEventsFor id (processTracks ly ed items st).2.2 = 0 ∧
      ∃ p', lookupA (processTracks ly ed items st).2.1 id = some p' ∧
        p'.crossed_line = true := by
  intro items
  induction items with
  | nil => intro st id p _ h _; exact Option.noConfusion h
  | cons kv rest ih =>
      intro st id p hn hlk hflag
      obtain ⟨k0, v0⟩ := kv
      simp only [List.map_cons, List.nodup_cons] at hn
      simp only [lookupA] at hlk
      by_cases hk : k0 = id
      · subst hk
        rw [if_pos rfl] at hlk
        obtain rfl : v0 = p := Option.some.inj hlk
        obtain ⟨e1, e2⟩ := processItem_of_flagged ly ed st k0 v0 hflag
        have hrest : lookupA rest k0 = none := by
          cases hr : lookupA rest k0 with
          | none => rfl
          | some v =>
              exact absurd
                (List.mem_map.mpr ⟨(k0, v), lookupA_mem rest k0 v hr, rfl⟩) hn.1
        obtain ⟨r1, r2⟩ := processTracks_absent ly ed rest (processItem ly ed st k0 v0).1 k0 hrest
        constructor
        · simp only [processTracks, countEventsFor_append, e2]
          simpa [countEventsFor_nil] using r1
        · refine ⟨v0, ?_, hflag⟩
          simp only [processTracks]
          show lookupA ((k0, (processItem ly ed st k0 v0).2.1) :: _) k0 = some v0
          simp [lookupA, e1]
      · rw [if_neg hk] at hlk
        obtain ⟨i1, i2⟩ := ih (processItem ly ed st k0 v0).1 id p hn.2 hlk hflag
        constructor
        · simp only [processTracks, countEventsFor_append]
          cases hev : (processItem ly ed st k0 v0).2.2 <;>
            simp [hev, countEventsFor_nil, countEventsFor_single, hk, i1]
        · obtain ⟨p', hp1, hp2⟩ := i2
          refine ⟨p', ?_, hp2⟩
          simp only [processTracks]
          show lookupA ((k0, _) :: _) id = some p'
          simp only [lookupA, if_neg hk]
          exact hp1

lemma processTracks_count (ly : Int) (ed : String) :
    ∀ (items : List (Nat × TrackedPerson)) (st : CrossState) (id : Nat),
      (items.map Prod.fst).Nodup →
      countEventsFor id (processTracks ly ed items st).2.2 ≤ 1 ∧
      (1 ≤ countEventsFor id (processTracks ly ed items st).2.2 →
        ∃ p', lookupA (processTracks ly ed items st).2.1 id = some p' ∧
          p'.crossed_line = true) := by
  intro items
  induction items with
  | nil =>
      intro st id _
      exact ⟨Nat.zero_le 1, fun h => absurd h (Nat.not_succ_le_zero 0)⟩
  | cons kv rest ih =>
      intro st id hn
      obtain ⟨k0, v0⟩ := kv
      simp only [List.map_cons, List.nodup_cons] at hn
      by_cases hk : k0 = id
      · subst hk
        have hrest : lookupA rest k0 = none := by
          cases hr : lookupA rest k0 with
          | none => rfl
          | some v =>
              exact absurd
                (List.mem_map.mpr ⟨(k0, v), lookupA_mem rest k0 v hr, rfl⟩) hn.1
        obtain ⟨r1, r2⟩ := processTracks_absent ly ed rest (processItem ly ed st k0 v0).1 k0 hrest
        rcases processItem_event_or ly ed st k0 v0 with hev | hflag
        · constructor
          · simp [processTracks, countEventsFor_append, hev, countEventsFor_nil, r1]
          · intro h1
            exfalso
            simp [processTracks, countEventsFor_append, hev, countEventsFor_nil, r1] at h1
        · constructor
          · simp only [processTracks, countEventsFor_append]
            cases hev2 : (processItem ly ed st k0 v0).2.2 <;>
              simp [hev2, countEventsFor_nil, countEventsFor_single, r1]
          · intro _
            refine ⟨(processItem ly ed st k0 v0).2.1, ?_, hflag⟩
            simp only [processTracks]
            show lookupA ((k0, (processItem ly ed st k0 v0).2.1) :: _) k0 = _
            simp [lookupA]
      · obtain ⟨i1, i2⟩ := ih (processItem ly ed st k0 v0).1 id hn.2
        constructor
        · simp only [processTracks, countEventsFor_append]
          cases hev : (processItem ly ed st k0 v0).2.2 <;>
            simp [hev, countEventsFor_nil, countEventsFor_single, hk, i1]
        · intro h1
          have h1' : 1 ≤ countEventsFor id (processTracks ly ed rest
              (processItem ly ed st k0 v0).1).2.2 := by
            simp only [processTracks, countEventsFor_append] at h1
            cases hev : (processItem ly ed st k0 v0).2.2 <;>
              rw [hev] at h1 <;>
              simpa [countEventsFor_nil, countEventsFor_single, hk] using h1
          obtain ⟨p', hp1, hp2⟩ := i2 h1'
          refine ⟨p', ?_, hp2⟩
          simp only [processTracks]
          show lookupA ((k0, _) :: _) id = some p'
          simp only [lookupA, if_neg hk]
          exact hp1

/-- A track id that can never fire again: either its track is present and
already marked crossed, or the id is retired (absent) and can never be
reassigned because `next_id` is past it. -/
def DeadC (c : EntryExitCounter) (id : Nat) : Prop :=
  (∃ p, lookupA c.tracker.tracks id = some p ∧ p.crossed_line = true) ∨
  (lookupA c.tracker.tracks id = none ∧ id < c.tracker.next_id)

lemma counter_update_step (c : EntryExitCounter) (dets : List (Int × Int))
    (now : ℤ) (id : Nat) (h : TrackerWF c.tracker) :
    TrackerWF (counter_update c dets now).1.tracker ∧
    c.tracker.next_id ≤ (counter_update c dets now).1.tracker.next_id ∧
    countEventsFor id (counter_update c dets now).2.2 ≤ 1 ∧
    (1 ≤ countEventsFor id (counter_update c dets now).2.2 →
      DeadC (counter_update c dets now).1 id) ∧
    (DeadC c id → countEventsFor id (counter_update c dets now).2.2 = 0 ∧
      DeadC (counter_update c dets now).1 id) := by
  obtain ⟨u1, u2, u3, u4⟩ := tracker_update_sim c.tracker dets now h
  simp only [counter_update]
  set trk := tracker_update c.tracker dets now with htrk
  set st0 : CrossState :=
    { track_states := c.track_states, total_entries := c.total_entries,
      total_exits := c.total_exits, current_occupancy := c.current_occupancy }
    with hst0
  have hkeys := processTracks_keys c.counting_line_y c.entry_direction trk.tracks st0
  obtain ⟨c1, c2⟩ := processTracks_count c.counting_line_y c.entry_direction
    trk.tracks st0 id u1.1
  refine ⟨⟨?_, ?_⟩, u2, c1, ?_, ?_⟩
  · show ((processTracks c.counting_line_y c.entry_direction trk.tracks st0).2.1.map
      Prod.fst).Nodup
    rw [hkeys]; exact u1.1
  · intro k hk
    show k < trk.next_id
    rw [hkeys] at hk
    exact u1.2 k hk
  · intro h1
    obtain ⟨p', hp, hflag⟩ := c2 h1
    exact Or.inl ⟨p', hp, hflag⟩
  · intro hdead
    rcases hdead with ⟨p, hp, hflag⟩ | ⟨habs, hid⟩
    · have hid : id < c.tracker.next_id :=
        h.2 id (List.mem_map.mpr ⟨(id, p), lookupA_mem _ id p hp, rfl⟩)
      cases hlk : lookupA trk.tracks id with
      | none =>
          obtain ⟨r1, r2⟩ := processTracks_absent c.counting_line_y
            c.entry_direction trk.tracks st0 id hlk
          exact ⟨r1, Or.inr ⟨r2, lt_of_lt_of_le hid u2⟩⟩
      | some p' =>
          obtain ⟨q, hq, hfe⟩ := u4 id p' hid hlk
          have hq' : q = p := by
            rw [hp] at hq
            exact (Option.some.inj hq).symm
          have hflag' : p'.crossed_line = true := by rw [hfe, hq', hflag]
          obtain ⟨r1, r2⟩ := processTracks_flagged c.counting_line_y
            c.entry_direction trk.tracks st0 id p' u1.1 hlk hflag'
          obtain ⟨p'', hp1, hp2⟩ := r2
          exact ⟨r1, Or.inl ⟨p'', hp1, hp2⟩⟩
    · have habs' : lookupA trk.tracks id = none := u3 id hid habs
      obtain ⟨r1, r2⟩ := processTracks_absent c.counting_line_y
        c.entry_direction trk.tracks st0 id habs'
      exact ⟨r1, Or.inr ⟨r2, lt_of_lt_of_le hid u2⟩⟩

lemma runEvents_dead (id : Nat) :
    ∀ (frames : List (List (Int × Int) × ℤ)) (c : EntryExitCounter),
      TrackerWF c.tracker → DeadC c id →
      countEventsFor id (runEvents c frames) = 0 := by
  intro frames
  induction frames with
  | nil => intro c _ _; rfl
  | cons f rest ih =>
      intro c hwf hdead
      obtain ⟨s1, _, _, _, s5⟩ := counter_update_step c f.1 f.2 id hwf
      obtain ⟨h0, hdead'⟩ := s5 hdead
      simp only [runEvents, countEventsFor_append, h0,
        ih (counter_update c f.1 f.2).1 s1 hdead']

lemma runEvents_le_one (id : Nat) :
    ∀ (frames : List (List (Int × Int) × ℤ)) (c : EntryExitCounter),
      TrackerWF c.tracker →
      countEventsFor id (runEvents c frames) ≤ 1 := by
  intro frames
  induction frames with
  | nil => intro c _; exact Nat.zero_le 1
  | cons f rest ih =>
      intro c hwf
      obtain ⟨s1, _, s3, s4, _⟩ := counter_update_step c f.1 f.2 id hwf
      simp only [runEvents, countEventsFor_append]
      by_cases h0 : countEventsFor id (counter_update c f.1 f.2).2.2 = 0
      · rw [h0]
        simpa using ih (counter_update c f.1 f.2).1 s1
      · have h1 : 1 ≤ countEventsFor id (counter_update c f.1 f.2).2.2 :=
          Nat.one_le_iff_ne_zero.mpr h0
        have hrest := runEvents_dead id rest (counter_update c f.1 f.2).1 s1 (s4 h1)
        omega

/-- C2: from a fresh counter, across any sequence of `update` calls, at most
one crossing event is ever emitted for a given track id: the first crossing
marks the track `crossed_line`, the flag is never cleared while the track
lives, and a retired id is never reassigned (`next_id` is monotone), so no
identity can re-trigger — even if its centroid oscillates across the line. -/
theorem C2_at_most_one_crossing_per_identity (ly fh : Int) (ed : String)
    (frames : List (List (Int × Int) × ℤ)) (id : Nat) :
    countEventsFor id (runEvents (initCounter ly fh ed) frames) ≤ 1 :=
  runEvents_le_one id frames (initCounter ly fh ed)
    ⟨List.nodup_nil, fun k hk => absurd hk (List.not_mem_nil k)⟩

end BarMonitor
